import Mathlib

/-!
Verification development for the drinkingames backend (lobby/session server
with pluggable mini-game modules).  The JavaScript sources are shallowly
embedded as Lean functions: Maps with insertion order become association
lists, `Date.now()` becomes an explicit `now : Int` argument, `Math.random()`
becomes an explicit stream `rng : Nat -> Nat` of draws, and socket emissions
become an explicit list of emitted events returned alongside the new state.
-/

/-! ## Players and lobbies (src/models/Player.js, src/models/Lobby.js) -/

/-- A connected participant, mirroring the fields of `Player` that the lobby
operations touch.  `lobbyCode` is the back-reference set on admission. -/
structure PlayerR where
  id : String
  username : String
  isHost : Bool
  lobbyCode : Option String
deriving DecidableEq, Repr

/-- A lobby, mirroring `Lobby`.  `players` is the `Map` of members in
insertion (= join) order; `currentGame` is the active game id (`null` when
no round is running). -/
structure LobbyR where
  code : String
  players : List PlayerR
  hostId : String
  currentGame : Option String
deriving DecidableEq, Repr

/-- The two validation failures `Lobby.addPlayer` can throw. -/
inductive AddError where
  | lobbyFull
  | roundInProgress
deriving DecidableEq, Repr

/-- `Map.set` semantics on an association-ordered member list: replace in
place if the key is present, append otherwise. -/
def mapSet (players : List PlayerR) (p : PlayerR) : List PlayerR :=
  if players.any (fun q => q.id = p.id) then
    players.map (fun q => if q.id = p.id then p else q)
  else players ++ [p]

/-- `Lobby.addPlayer`: reject when the lobby already holds 8 members, reject
when a game is in progress, otherwise insert the player into the member map
and set the player's `lobbyCode` back-reference.  The (possibly unchanged)
lobby and player are returned so that the absence of mutation on failure is
part of the function's value. -/
def addPlayer (lb : LobbyR) (p : PlayerR) : Except AddError Unit × LobbyR × PlayerR :=
  if 8 ≤ lb.players.length then (Except.error AddError.lobbyFull, lb, p)
  else if lb.currentGame.isSome then (Except.error AddError.roundInProgress, lb, p)
  else
    let p2 := { p with lobbyCode := some lb.code }
    (Except.ok (), { lb with players := mapSet lb.players p2 }, p2)

/-- Result object of `Lobby.removePlayer`: `\x7b\x7d`, `\x7bnewHost\x7d`, or
`\x7bdestroyed: true\x7d`. -/
inductive RemoveResult where
  | noChange
  | newHost (p : PlayerR)
  | destroyed
deriving DecidableEq, Repr

/-- Mark the promoted member's `isHost` flag inside the member list
(mirrors `newHost.isHost = true`, which mutates the object stored in the
map). -/
def setHostFlag (players : List PlayerR) (pid : String) : List PlayerR :=
  players.map (fun q => if q.id = pid then { q with isHost := true } else q)

/-- `Lobby.removePlayer(playerId)` together with `Lobby.destroy()`.  The
process-wide registry `Lobby.lobbies` is threaded explicitly as the list of
live lobby codes; `destroy` frees the lobby's code by erasing it from that
registry.  If the host leaves and members remain, the first surviving entry
of the member map (`players.values().next().value`) is promoted. -/
def removePlayer (lb : LobbyR) (registry : List String) (pid : String) :
    LobbyR × List String × RemoveResult :=
  match lb.players.find? (fun q => q.id = pid) with
  | none => (lb, registry, RemoveResult.noChange)
  | some _ =>
    let remaining := lb.players.eraseP (fun q => q.id = pid)
    if pid = lb.hostId then
      match remaining with
      | [] => ({ lb with players := [] }, registry.erase lb.code, RemoveResult.destroyed)
      | first :: rest =>
        let promoted := { first with isHost := true }
        ({ lb with players := setHostFlag (first :: rest) first.id, hostId := first.id },
          registry, RemoveResult.newHost promoted)
    else
      ({ lb with players := remaining }, registry, RemoveResult.noChange)

/-! ## Lobby code generation (src/utils/codeGenerator.js) -/

/-- The code alphabet of `generateLobbyCode`: the 24 upper-case letters with
I and O excluded to avoid confusion. -/
def lobbyCodeLetters : List Char := "ABCDEFGHJKLMNPQRSTUVWXYZ".toList

/-- `generateLobbyCode`: four draws from the alphabet.  The JavaScript
`Math.floor(Math.random() * letters.length)` becomes `rng i % 24` for the
explicit draw stream `rng`. -/
def generateLobbyCode (rng : Nat → Nat) (k : Nat) : String :=
  String.mk ((List.range 4).map (fun i =>
    lobbyCodeLetters.getD (rng (k + i) % lobbyCodeLetters.length) 'A'))

/-- `generateUniqueLobbyCode`: redraw until the code is absent from the
existing set.  The unbounded `do/while` is embedded with explicit fuel;
`none` corresponds to the loop still running after `fuel` redraws. -/
def generateUniqueLobbyCode (rng : Nat → Nat) (existing : List String) :
    Nat → Nat → Option String
  | 0, _ => none
  | fuel + 1, k =>
    let code := generateLobbyCode rng k
    if existing.contains code then generateUniqueLobbyCode rng existing fuel (k + 4)
    else some code

/-! ## Helper lemmas for the lobby claims -/

theorem mem_getD_lobbyCodeLetters (idx : Nat) :
    lobbyCodeLetters.getD idx 'A' ∈ lobbyCodeLetters := by
  by_cases h : idx < lobbyCodeLetters.length
  · simpa [List.getD, List.getElem?_eq_getElem h] using List.getElem_mem h
  · have hno : lobbyCodeLetters.get? idx = none := List.get?_eq_none.mpr (by omega)
    rw [List.getD, hno]
    decide

theorem generateLobbyCode_length (rng : Nat → Nat) (k : Nat) :
    (generateLobbyCode rng k).length = 4 := by
  simp [generateLobbyCode, String.length]

theorem generateLobbyCode_chars (rng : Nat → Nat) (k : Nat) :
    ∀ c ∈ (generateLobbyCode rng k).toList, c ∈ lobbyCodeLetters := by
  intro c hc
  simp only [generateLobbyCode, String.toList, List.mem_map] at hc
  obtain ⟨i, _, rfl⟩ := hc
  exact mem_getD_lobbyCodeLetters _

theorem generateUniqueLobbyCode_spec (rng : Nat → Nat) (existing : List String) :
    ∀ fuel k code, generateUniqueLobbyCode rng existing fuel k = some code →
      code.length = 4 ∧ (∀ c ∈ code.toList, c ∈ lobbyCodeLetters) ∧ code ∉ existing := by
  intro fuel
  induction fuel with
  | zero => intro k code h; simp [generateUniqueLobbyCode] at h
  | succ n ih =>
    intro k code h
    simp only [generateUniqueLobbyCode] at h
    by_cases hmem : existing.contains (generateLobbyCode rng k)
    · rw [if_pos hmem] at h
      exact ih _ _ h
    · rw [if_neg hmem] at h
      cases h
      refine ⟨generateLobbyCode_length rng k, generateLobbyCode_chars rng k, ?_⟩
      simpa using hmem

/-- With pairwise-distinct ids, erasing the first match equals filtering the
id out: there is at most one entry carrying the id. -/
theorem eraseP_id_eq_filter (pid : String) :
    ∀ l : List PlayerR, (l.map (fun q => q.id)).Nodup →
      l.eraseP (fun q => q.id = pid) = l.filter (fun q => q.id ≠ pid) := by
  intro l
  induction l with
  | nil => intro _; rfl
  | cons q tl ih =>
    intro hnd
    simp only [List.map_cons, List.nodup_cons] at hnd
    by_cases hq : q.id = pid
    · have htl : ∀ r ∈ tl, r.id ≠ pid := by
        intro r hr he
        exact hnd.1 (List.mem_map.mpr ⟨r, hr, he.trans hq.symm⟩)
      have h2 : List.filter (fun r => !decide (r.id = pid)) tl = tl :=
        List.filter_eq_self.mpr (fun r hr => by simp [htl r hr])
      simp [List.eraseP_cons, List.filter_cons, hq, h2]
    · simp [List.eraseP_cons, List.filter_cons, hq, ih hnd.2]

/-- Claim C2 helper: membership in `any` form gives a `find?` hit. -/
theorem find?_isSome_of_any (l : List PlayerR) (pid : String)
    (h : l.any (fun q => q.id = pid)) :
    (l.find? (fun q => decide (q.id = pid))).isSome := by
  rw [List.find?_isSome]
  rcases List.any_eq_true.mp h with ⟨q, hq, hid⟩
  exact ⟨q, hq, hid⟩

/-- C2: `removePlayer` promotes the earliest-joined remaining member when the
host leaves a non-empty lobby, destroys the lobby (freeing its code) when the
last member leaves, and changes no host otherwise. -/
theorem C2_removePlayer_host_rules (lb : LobbyR) (registry : List String) (pid : String)
    (hids : (lb.players.map (fun q => q.id)).Nodup)
    (hreg : registry.Nodup)
    (hmem : lb.players.any (fun q => q.id = pid)) :
    (pid = lb.hostId →
      ∀ first rest, lb.players.filter (fun q => q.id ≠ pid) = first :: rest →
        (removePlayer lb registry pid).1.hostId = first.id ∧
        (removePlayer lb registry pid).2.2 = RemoveResult.newHost { first with isHost := true } ∧
        (removePlayer lb registry pid).2.1 = registry) ∧
    (pid = lb.hostId → lb.players.filter (fun q => q.id ≠ pid) = [] →
      (removePlayer lb registry pid).2.2 = RemoveResult.destroyed ∧
      lb.code ∉ (removePlayer lb registry pid).2.1) ∧
    (pid ≠ lb.hostId →
      (removePlayer lb registry pid).1.hostId = lb.hostId ∧
      (removePlayer lb registry pid).2.2 = RemoveResult.noChange) := by
  have hfind := find?_isSome_of_any lb.players pid hmem
  obtain ⟨w, hw⟩ := Option.isSome_iff_exists.mp hfind
  have herase := eraseP_id_eq_filter pid lb.players hids
  refine ⟨?_, ?_, ?_⟩
  · intro hhost first rest hfilter
    rw [hfilter] at herase
    simp [removePlayer, hw, herase, ← hhost]
  · intro hhost hfilter
    rw [hfilter] at herase
    simp only [removePlayer, hw, herase, ← hhost, if_pos rfl]
    refine ⟨rfl, ?_⟩
    intro hc
    exact (List.Nodup.mem_erase_iff hreg).mp hc |>.1 rfl
  · intro hhost
    simp [removePlayer, hw, Ne.symm hhost, hhost]

/-- C2 witness: a three-member lobby whose host leaves promotes the
second-joined member, and a singleton lobby whose host leaves is destroyed
with its code erased from the registry. -/
theorem C2_removePlayer_host_rules_witness :
    (removePlayer
        { code := "ABCD",
          players := [
            { id := "h1", username := "alice", isHost := true, lobbyCode := some "ABCD" },
            { id := "p2", username := "bobby", isHost := false, lobbyCode := some "ABCD" },
            { id := "p3", username := "carol", isHost := false, lobbyCode := some "ABCD" }],
          hostId := "h1", currentGame := none }
        ["ABCD", "WXYZ"] "h1").1.hostId = "p2" ∧
    (removePlayer
        { code := "QRST",
          players := [{ id := "h1", username := "alice", isHost := true, lobbyCode := some "QRST" }],
          hostId := "h1", currentGame := none }
        ["QRST"] "h1").2.2 = RemoveResult.destroyed := by
  constructor
  · exact (C2_removePlayer_host_rules _ _ _ (by decide) (by decide) (by decide)).1 rfl
      { id := "p2", username := "bobby", isHost := false, lobbyCode := some "ABCD" }
      [{ id := "p3", username := "carol", isHost := false, lobbyCode := some "ABCD" }]
      (by decide) |>.1
  · exact (C2_removePlayer_host_rules _ _ _ (by decide) (by decide) (by decide)).2.1 rfl
      (by decide) |>.1

/-- C6: `addPlayer` rejects a full lobby with `LobbyFull` and an in-progress
round with `RoundInProgress`, in both cases leaving the member map and the
incoming player's back-reference exactly as they were; otherwise it admits
the player and sets the back-reference to the lobby's code. -/
theorem C6_addPlayer_gating (lb : LobbyR) (p : PlayerR) :
    (8 ≤ lb.players.length →
      addPlayer lb p = (Except.error AddError.lobbyFull, lb, p)) ∧
    (lb.players.length < 8 → lb.currentGame.isSome →
      addPlayer lb p = (Except.error AddError.roundInProgress, lb, p)) ∧
    (lb.players.length < 8 → lb.currentGame = none →
      (addPlayer lb p).1 = Except.ok () ∧
      (addPlayer lb p).2.2 = { p with lobbyCode := some lb.code } ∧
      (addPlayer lb p).2.2 ∈ (addPlayer lb p).2.1.players ∧
      (¬ lb.players.any (fun q => q.id = p.id) →
        (addPlayer lb p).2.1.players = lb.players ++ [{ p with lobbyCode := some lb.code }])) := by
  refine ⟨?_, ?_, ?_⟩
  · intro hfull
    simp [addPlayer, hfull]
  · intro hlt hgame
    simp [addPlayer, Nat.not_le.mpr hlt, hgame]
  · intro hlt hgame
    rw [addPlayer, if_neg (Nat.not_le.mpr hlt), hgame]
    simp only [Option.isSome_none, Bool.false_eq_true, if_false]
    refine ⟨by trivial, by trivial, ?_, ?_⟩
    · by_cases hdup : lb.players.any (fun q => q.id = p.id)
      · rcases List.any_eq_true.mp hdup with ⟨q, hq, hid⟩
        have hid' : q.id = p.id := of_decide_eq_true hid
        simp only [mapSet, if_pos hdup]
        exact List.mem_map.mpr ⟨q, hq, by simp [hid']⟩
      · simp [mapSet, hdup]
    · intro hfresh
      simp [mapSet, hfresh]

/-- C6 witness: a concrete two-member lobby with no active game admits a new
player with its back-reference set, and members are appended in join order. -/
theorem C6_addPlayer_gating_witness :
    (addPlayer
        { code := "ABCD",
          players := [
            { id := "h1", username := "alice", isHost := true, lobbyCode := some "ABCD" },
            { id := "p2", username := "bobby", isHost := false, lobbyCode := some "ABCD" }],
          hostId := "h1", currentGame := none }
        { id := "p3", username := "carol", isHost := false, lobbyCode := none }).2.2 =
      { id := "p3", username := "carol", isHost := false, lobbyCode := some "ABCD" } := by
  exact (C6_addPlayer_gating _ _).2.2 (by decide) rfl |>.2.1

/-- C8 counterexample: the claim describes the code alphabet as a 24-symbol
alphabet of digits and letters, but the concrete alphabet in the source
contains no digit at all (it is 24 upper-case letters). -/
theorem C8_alphabet_has_no_digit :
    lobbyCodeLetters.length = 24 ∧ ¬ ∃ c ∈ lobbyCodeLetters, c.isDigit = true := by
  decide

/-- C8 (amended): whenever the generator returns a code it has exactly 4
characters, each drawn from the 24-letter alphabet (upper-case letters with
the visually ambiguous I and O excluded, no digits), and the code is absent
from the existing set passed by the caller. -/
theorem C8_generateUniqueLobbyCode_fresh (rng : Nat → Nat) (existing : List String)
    (fuel k : Nat) (code : String)
    (h : generateUniqueLobbyCode rng existing fuel k = some code) :
    code.length = 4 ∧
    (∀ c ∈ code.toList, c ∈ lobbyCodeLetters) ∧
    lobbyCodeLetters.length = 24 ∧
    (∀ c ∈ lobbyCodeLetters, c.isUpper = true ∧ c.isDigit = false ∧ c ≠ 'I' ∧ c ≠ 'O') ∧
    code ∉ existing := by
  obtain ⟨h1, h2, h3⟩ := generateUniqueLobbyCode_spec rng existing fuel k code h
  exact ⟨h1, h2, by decide, by decide, h3⟩

/-- C8 witness: with the identity draw stream and an existing set holding
only the first drawn code, the generator retries once and issues the next
code, which indeed avoids the existing set. -/
theorem C8_generateUniqueLobbyCode_fresh_witness :
    ∃ code, generateUniqueLobbyCode (fun i => i) ["ABCD"] 2 0 = some code ∧
      code.length = 4 ∧ code ∉ ["ABCD"] := by
  have h : generateUniqueLobbyCode (fun i => i) ["ABCD"] 2 0 = some "EFGH" := by decide
  obtain ⟨h1, _, _, _, h5⟩ :=
    C8_generateUniqueLobbyCode_fresh (fun i => i) ["ABCD"] 2 0 "EFGH" h
  exact ⟨"EFGH", h, h1, h5⟩

/-! ## The queens game module (src/games/queens/index.js): round state -/

/-- `GRID_SIZE` in the queens module. -/
def GRID_SIZE : Nat := 6

/-- `TIME_LIMIT` (milliseconds) in the queens module. -/
def TIME_LIMIT : Int := 60000

/-- A 6x6 grid of region ids; `-1` marks a not-yet-assigned cell during
generation, exactly as in the source. -/
abbrev Grid := List (List Int)

/-- `grid[r][c]` for in-range indices; out-of-range reads default to the
unassigned marker `-1` (the source never reads out of range). -/
def getCell (grid : Grid) (r c : Nat) : Int :=
  (grid.getD r []).getD c (-1)

/-- `grid[q.row][q.col]` for client-supplied (possibly negative) coordinates;
only evaluated after the bounds check in `validateSolution`. -/
def getCellI (grid : Grid) (r c : Int) : Int :=
  getCell grid r.toNat c.toNat

/-- One entry of `state.solvedPlayers` (keyed by player id). -/
structure SolvedEntry where
  solveTime : Int
  username : String
deriving DecidableEq, Repr

/-- One entry of the ranked `playerScores` list built by `finishGame`. -/
structure ScoreEntry where
  playerId : String
  username : String
  solved : Bool
  solveTime : Option Int
deriving DecidableEq, Repr

/-- One entry of the `losers` list built by `finishGame`; the no-solve
entries carry no `solveTime` field, so it is optional here. -/
structure LoserEntry where
  playerId : String
  username : String
  reason : String
  solveTime : Option Int
deriving DecidableEq, Repr

/-- The `state.results` payload of the queens round. -/
structure QueensResults where
  players : List ScoreEntry
  losers : List LoserEntry
  solution : List Nat
deriving DecidableEq, Repr

/-- The queens round state (`lobby.gameState`).  The bag of timer handles is
not modelled: the claims under verification concern the phase/score state
and the emitted events, and `finishGame` never touches the timers. -/
structure QueensState where
  phase : String
  grid : Grid
  solution : List Nat
  solvedPlayers : List (String × SolvedEntry)
  phaseStartTime : Option Int
  results : Option QueensResults
deriving DecidableEq, Repr

/-- The socket emissions of the queens module that the claims observe. -/
inductive QEvent where
  | phaseEvent (phase : String)
  | playerSolved (playerId : String) (username : String) (solveTime : Int)
  | resultsEvent (r : QueensResults)
deriving DecidableEq, Repr

/-- A queen position submitted by a client (`\x7brow, col\x7d`); client data
may be out of range, hence `Int`. -/
structure QPos where
  row : Int
  col : Int
deriving DecidableEq, Repr

/-! ## validateSolution -/

/-- King adjacency of two submitted queens:
`|dr| <= 1 && |dc| <= 1`. -/
def qAdjacent (a b : QPos) : Bool :=
  (a.row - b.row).natAbs ≤ 1 && (a.col - b.col).natAbs ≤ 1

/-- The double loop `for i; for j > i` of the adjacency check. -/
def pairwiseNonAdjacent : List QPos → Bool
  | [] => true
  | q :: rest => rest.all (fun p => !(qAdjacent q p)) && pairwiseNonAdjacent rest

/-- `validateSolution(grid, queens)`: count, bounds, one queen per row
(`Set` of rows has 6 elements), one per column, one per region, and no
king-adjacent pair.  `Set` sizes become `dedup` lengths; the early-return
chain of the source is the short-circuiting conjunction. -/
def validateSolution (grid : Grid) (queens : List QPos) : Bool :=
  decide (queens.length = GRID_SIZE) &&
  queens.all (fun q => 0 ≤ q.row && q.row < 6 && 0 ≤ q.col && q.col < 6) &&
  decide ((queens.map (fun q => q.row)).dedup.length = GRID_SIZE) &&
  decide ((queens.map (fun q => q.col)).dedup.length = GRID_SIZE) &&
  decide ((queens.map (fun q => getCellI grid q.row q.col)).dedup.length = GRID_SIZE) &&
  pairwiseNonAdjacent queens

/-! ## finishGame -/

/-- JavaScript `Array.sort(cmp)` is stable (ES2019) and its comparator is
encoded as the boolean "a precedes or ties b" relation `cmp(a,b) <= 0`; any
stable sort realizes it, and the embedding uses insertion sort — the
canonical stable sort — so the model stays kernel-computable. -/
def jsSort {α : Type _} (le : α → α → Bool) (l : List α) : List α :=
  List.insertionSort (fun a b => le a b = true) l

theorem jsSort_perm {α : Type _} (le : α → α → Bool) (l : List α) :
    (jsSort le l).Perm l :=
  List.perm_insertionSort _ l

theorem jsSort_length {α : Type _} (le : α → α → Bool) (l : List α) :
    (jsSort le l).length = l.length :=
  (jsSort_perm le l).length_eq

theorem jsSort_mem {α : Type _} {le : α → α → Bool} {l : List α} {a : α} :
    a ∈ jsSort le l ↔ a ∈ l :=
  (jsSort_perm le l).mem_iff

theorem jsSort_sorted {α : Type _} (le : α → α → Bool)
    (htrans : ∀ a b c, le a b = true → le b c = true → le a c = true)
    (htotal : ∀ a b, (le a b || le b a) = true) (l : List α) :
    (jsSort le l).Pairwise (fun a b => le a b = true) := by
  haveI : IsTotal α (fun a b => le a b = true) := ⟨fun a b => by
    have h := htotal a b
    rw [Bool.or_eq_true] at h
    exact h⟩
  haveI : IsTrans α (fun a b => le a b = true) := ⟨fun a b c => htrans a b c⟩
  exact List.sorted_insertionSort _ l

/-- The sort comparator of `finishGame` as a boolean "less or equal":
solvers by ascending time, solvers before non-solvers, non-solvers tied. -/
def scoreLe (a b : ScoreEntry) : Bool :=
  if a.solved && b.solved then a.solveTime.getD 0 ≤ b.solveTime.getD 0
  else if a.solved then true
  else if b.solved then false
  else true

/-- Placeholder entry used to read `solvers[solvers.length - 1]`; the source
only does so when `solvers` is non-empty. -/
def defaultScoreEntry : ScoreEntry :=
  { playerId := "", username := "", solved := false, solveTime := none }

/-- The score entry `finishGame` builds for one lobby member. -/
def mkScore (st : QueensState) (p : PlayerR) : ScoreEntry :=
  match st.solvedPlayers.find? (fun e => e.1 = p.id) with
  | some e =>
    { playerId := p.id, username := p.username, solved := true, solveTime := some e.2.solveTime }
  | none =>
    { playerId := p.id, username := p.username, solved := false, solveTime := none }

/-- A `no-solve` loser record projected from a score entry. -/
def noSolveLoser (p : ScoreEntry) : LoserEntry :=
  { playerId := p.playerId, username := p.username, reason := "no-solve", solveTime := none }

/-- A `slowest` loser record projected from a score entry. -/
def slowestLoser (p : ScoreEntry) : LoserEntry :=
  { playerId := p.playerId, username := p.username, reason := "slowest",
    solveTime := p.solveTime }

/-- The sorted `playerScores` list of `finishGame`: one entry per lobby
member, sorted by the comparator. -/
def rankScores (lobby : LobbyR) (st : QueensState) : List ScoreEntry :=
  jsSort scoreLe (lobby.players.map (mkScore st))

/-- The loser derivation of `finishGame`: everyone when nobody solved, the
non-solvers when some solved, otherwise the slowest solver(s) — read off the
last entry of the ascending solver list, ties included. -/
def deriveLosers (sorted : List ScoreEntry) : List LoserEntry :=
  let solvers := sorted.filter (fun p => p.solved)
  let nonSolvers := sorted.filter (fun p => !p.solved)
  if solvers.length = 0 then
    sorted.map noSolveLoser
  else if 0 < nonSolvers.length then
    nonSolvers.map noSolveLoser
  else
    let slowestTime := (solvers.getLastD defaultScoreEntry).solveTime
    (solvers.filter (fun p => p.solveTime = slowestTime)).map slowestLoser

/-- `finishGame(lobby, io)`: idempotence guard on `phase`, then ranking,
loser derivation, results storage, and the two broadcasts
(`game:phase results` and `game:results`). -/
def finishGame (lobby : LobbyR) (st : QueensState) : QueensState × List QEvent :=
  if st.phase = "results" then (st, [])
  else
    let sorted := rankScores lobby st
    let results : QueensResults :=
      { players := sorted, losers := deriveLosers sorted, solution := st.solution }
    ({ st with phase := "results", results := some results },
      [QEvent.phaseEvent "results", QEvent.resultsEvent results])

/-! ## submitSolution -/

/-- The acknowledgement object returned to the acting client. -/
structure ActionResult where
  error : Option String
  correct : Option Bool
  solveTime : Option Int
deriving DecidableEq, Repr

/-- `submitSolution(lobby, playerId, queens, io)`.  `Date.now()` is the
explicit `now`; the cleared `gameEnd` timer is outside the modelled state. -/
def submitSolution (lobby : LobbyR) (st : QueensState) (playerId : String)
    (queens : List QPos) (now : Int) : QueensState × List QEvent × ActionResult :=
  if st.phase ≠ "playing" then
    (st, [], { error := some "Game is not in playing phase", correct := none, solveTime := none })
  else if (st.solvedPlayers.find? (fun e => e.1 = playerId)).isSome then
    (st, [], { error := some "Already solved", correct := some true, solveTime := none })
  else if !(validateSolution st.grid queens) then
    (st, [], { error := none, correct := some false, solveTime := none })
  else
    let solveTime := now - st.phaseStartTime.getD 0
    let uname :=
      match lobby.players.find? (fun p => p.id = playerId) with
      | some p => p.username
      | none => "Unknown"
    let st1 := { st with
      solvedPlayers := st.solvedPlayers ++ [(playerId, { solveTime := solveTime, username := uname })] }
    let ev1 := [QEvent.playerSolved playerId uname solveTime]
    if lobby.players.length ≤ st1.solvedPlayers.length then
      let fin := finishGame lobby st1
      (fin.1, ev1 ++ fin.2, { error := none, correct := some true, solveTime := some solveTime })
    else
      (st1, ev1, { error := none, correct := some true, solveTime := some solveTime })

/-! ## getReconnectState -/

/-- The reconnect snapshot; each field is optional because the source builds
a different object shape per phase.  There is no field through which another
player's in-progress submission could travel. -/
structure ReconnectState where
  phase : Option String
  grid : Option Grid
  timeLimit : Option Int
  solved : Option Bool
  solvedPlayers : Option (List (String × String × Int))
  results : Option QueensResults
deriving DecidableEq, Repr

/-- JavaScript `state.phaseStartTime || Date.now()`: `null` and the falsy
time `0` fall back to `Date.now()`. -/
def jsOrNow (o : Option Int) (now : Int) : Int :=
  match o with
  | some t => if t = 0 then now else t
  | none => now

/-- An all-`none` snapshot (`return \x7b\x7d`). -/
def emptyReconnectState : ReconnectState :=
  { phase := none, grid := none, timeLimit := none, solved := none,
    solvedPlayers := none, results := none }

/-- `getReconnectState(lobby, playerId)` of the queens module. -/
def getReconnectState (st : Option QueensState) (playerId : String) (now : Int) :
    ReconnectState :=
  match st with
  | none => emptyReconnectState
  | some s =>
    if s.phase = "playing" then
      let elapsed := now - jsOrNow s.phaseStartTime now
      let remaining := max 0 (TIME_LIMIT - elapsed)
      { phase := some "playing", grid := some s.grid, timeLimit := some remaining,
        solved := some (s.solvedPlayers.find? (fun e => e.1 = playerId)).isSome,
        solvedPlayers := some (s.solvedPlayers.map (fun e => (e.1, e.2.username, e.2.solveTime))),
        results := none }
    else if s.phase = "results" then
      { emptyReconnectState with phase := some "results", results := s.results }
    else
      { emptyReconnectState with phase := some s.phase }

/-! ## Claims about the round state machine -/

/-- Recognizer for the `game:results` broadcast. -/
def isResultsBroadcast : QEvent → Bool
  | QEvent.resultsEvent _ => true
  | _ => false

/-- Recognizer for the `game:phase` broadcast that announces `results`. -/
def isResultsPhaseBroadcast : QEvent → Bool
  | QEvent.phaseEvent p => p = "results"
  | _ => false

/-- C1: calling `finishGame` twice in succession is safe in every phase: the
second call observes `phase = "results"`, changes nothing and emits nothing;
and starting from any non-results phase the two calls together perform
exactly one transition into `results` and emit exactly one `game:results`
broadcast (and one `results` phase broadcast). -/
theorem C1_finishGame_idempotent (lobby : LobbyR) (st : QueensState) :
    ((finishGame lobby (finishGame lobby st).1).1 = (finishGame lobby st).1 ∧
      (finishGame lobby (finishGame lobby st).1).2 = []) ∧
    (st.phase ≠ "results" →
      (finishGame lobby st).1.phase = "results" ∧
      (((finishGame lobby st).2 ++ (finishGame lobby (finishGame lobby st).1).2).filter
        isResultsBroadcast).length = 1 ∧
      (((finishGame lobby st).2 ++ (finishGame lobby (finishGame lobby st).1).2).filter
        isResultsPhaseBroadcast).length = 1) := by
  by_cases hp : st.phase = "results"
  · constructor
    · simp [finishGame, hp]
    · intro h; exact absurd hp h
  · have h1 : (finishGame lobby st).1.phase = "results" := by
      simp [finishGame, hp]
    have h2 : finishGame lobby (finishGame lobby st).1 = ((finishGame lobby st).1, []) := by
      rw [finishGame.eq_def]
      simp [h1]
    refine ⟨⟨by rw [h2], by rw [h2]⟩, fun _ => ⟨h1, ?_, ?_⟩⟩
    · rw [h2]
      simp [finishGame, hp, isResultsBroadcast]
    · rw [h2]
      simp [finishGame, hp, isResultsPhaseBroadcast]

/-- C1 witness: a concrete two-player round in the `playing` phase. -/
theorem C1_finishGame_idempotent_witness :
    ("playing" ≠ "results") ∧
    (finishGame
        { code := "ABCD",
          players := [
            { id := "h1", username := "alice", isHost := true, lobbyCode := some "ABCD" },
            { id := "p2", username := "bobby", isHost := false, lobbyCode := some "ABCD" }],
          hostId := "h1", currentGame := some "queens" }
        { phase := "playing", grid := [], solution := [],
          solvedPlayers := [("h1", { solveTime := 1000, username := "alice" })],
          phaseStartTime := some 5, results := none }).1.phase = "results" := by
  refine ⟨by decide, ?_⟩
  exact (C1_finishGame_idempotent _ _).2 (by decide) |>.1

/-- C9: a resubmission by a player who has already solved is answered with
the success-with-already-solved acknowledgement (`correct: true` alongside
the "Already solved" marker), emits nothing, and leaves the round state —
phase, solved-players map and the recorded solve time — unchanged. -/
theorem C9_resubmit_after_solve (lobby : LobbyR) (st : QueensState) (pid : String)
    (queens : List QPos) (now : Int)
    (hphase : st.phase = "playing")
    (hsolved : (st.solvedPlayers.find? (fun e => e.1 = pid)).isSome = true) :
    submitSolution lobby st pid queens now =
      (st, [], { error := some "Already solved", correct := some true, solveTime := none }) := by
  simp [submitSolution, hphase, hsolved]

/-- C9 witness: a player with a recorded solve resubmits. -/
theorem C9_resubmit_after_solve_witness :
    submitSolution
        { code := "ABCD",
          players := [{ id := "p1", username := "alice", isHost := true, lobbyCode := some "ABCD" }],
          hostId := "p1", currentGame := some "queens" }
        { phase := "playing", grid := [], solution := [],
          solvedPlayers := [("p1", { solveTime := 1234, username := "alice" })],
          phaseStartTime := some 5, results := none }
        "p1" [] 99999 =
      ({ phase := "playing", grid := [], solution := [],
          solvedPlayers := [("p1", { solveTime := 1234, username := "alice" })],
          phaseStartTime := some 5, results := none }, [],
        { error := some "Already solved", correct := some true, solveTime := none }) := by
  exact C9_resubmit_after_solve _ _ "p1" [] 99999 rfl (by decide)

/-- C7: the reconnect snapshot in the `playing` phase returns the original
grid, the remaining budget `max 0 (TIME_LIMIT - elapsed)` (not the full
budget), the reconnecting player's own solved flag, and — besides the phase
— only the already-broadcast solved-players list; in particular no results
and no other submission data. -/
theorem C7_reconnect_snapshot (s : QueensState) (pid : String) (now t0 : Int)
    (hphase : s.phase = "playing")
    (hstart : s.phaseStartTime = some t0)
    (ht0 : t0 ≠ 0) :
    getReconnectState (some s) pid now =
      { phase := some "playing",
        grid := some s.grid,
        timeLimit := some (max 0 (TIME_LIMIT - (now - t0))),
        solved := some (s.solvedPlayers.find? (fun e => e.1 = pid)).isSome,
        solvedPlayers := some (s.solvedPlayers.map (fun e => (e.1, e.2.username, e.2.solveTime))),
        results := none } := by
  simp [getReconnectState, hphase, hstart, jsOrNow, ht0]

/-- C7 witness: a mid-puzzle snapshot 17 seconds in: 43 seconds remain. -/
theorem C7_reconnect_snapshot_witness :
    (getReconnectState
        (some { phase := "playing", grid := [[0, 1], [1, 0]], solution := [1, 0],
                solvedPlayers := [("p2", { solveTime := 9000, username := "bobby" })],
                phaseStartTime := some 100000, results := none })
        "p1" 117000).timeLimit = some 43000 ∧
    (getReconnectState
        (some { phase := "playing", grid := [[0, 1], [1, 0]], solution := [1, 0],
                solvedPlayers := [("p2", { solveTime := 9000, username := "bobby" })],
                phaseStartTime := some 100000, results := none })
        "p1" 117000).solved = some false := by
  have h := C7_reconnect_snapshot
    { phase := "playing", grid := [[0, 1], [1, 0]], solution := [1, 0],
      solvedPlayers := [("p2", { solveTime := 9000, username := "bobby" })],
      phaseStartTime := some 100000, results := none }
    "p1" 117000 100000 rfl rfl (by decide)
  rw [h]
  constructor
  · show some (max 0 (TIME_LIMIT - (117000 - 100000))) = some 43000
    decide
  · decide

/-! ## C10: loser derivation -/

/-- The solve time recorded for a player id, if any (claim-side view of the
`solvedPlayers` map). -/
def solvedAt (st : QueensState) (pid : String) : Option Int :=
  (st.solvedPlayers.find? (fun e => e.1 = pid)).map (fun e => e.2.solveTime)

theorem mkScore_playerId (st : QueensState) (p : PlayerR) :
    (mkScore st p).playerId = p.id := by
  rcases hfind : st.solvedPlayers.find? (fun e => e.1 = p.id) with _ | e <;>
    simp [mkScore, hfind]

theorem mkScore_solved (st : QueensState) (p : PlayerR) :
    (mkScore st p).solved = (solvedAt st p.id).isSome := by
  rcases hfind : st.solvedPlayers.find? (fun e => e.1 = p.id) with _ | e <;>
    simp [mkScore, solvedAt, hfind]

theorem mkScore_solveTime (st : QueensState) (p : PlayerR) :
    (mkScore st p).solveTime = solvedAt st p.id := by
  rcases hfind : st.solvedPlayers.find? (fun e => e.1 = p.id) with _ | e <;>
    simp [mkScore, solvedAt, hfind]

theorem scoreLe_trans (a b c : ScoreEntry) :
    scoreLe a b = true → scoreLe b c = true → scoreLe a c = true := by
  unfold scoreLe
  cases ha : a.solved <;> cases hb : b.solved <;> cases hc : c.solved <;>
    simp <;> omega

theorem scoreLe_total (a b : ScoreEntry) : (scoreLe a b || scoreLe b a) = true := by
  unfold scoreLe
  cases ha : a.solved <;> cases hb : b.solved <;> simp <;> omega

/-- The ordering the claim states for the ranked list: whenever the later
entry is a solver, the earlier entry is a solver with a solve time at most
as large (so solvers come first, ascending). -/
def rankedBefore (a b : ScoreEntry) : Prop :=
  b.solved = true → a.solved = true ∧ a.solveTime.getD 0 ≤ b.solveTime.getD 0

theorem scoreLe_imp_rankedBefore {a b : ScoreEntry} (h : scoreLe a b = true) :
    rankedBefore a b := by
  intro hb
  unfold scoreLe at h
  cases ha : a.solved
  · rw [ha, hb] at h
    simp at h
  · rw [ha, hb] at h
    simpa using h

/-- In a list sorted by `R`, every element is the last one or relates to it. -/
theorem pairwise_rel_getLast {α : Type _} {R : α → α → Prop} :
    ∀ (l : List α) (h : l ≠ []), l.Pairwise R →
      ∀ x ∈ l, x = l.getLast h ∨ R x (l.getLast h) := by
  intro l
  induction l with
  | nil => intro h; exact absurd rfl h
  | cons a tl ih =>
    intro h hp x hx
    cases tl with
    | nil =>
      left
      simpa using hx
    | cons b tl2 =>
      have hne : (b :: tl2) ≠ [] := by simp
      have hlast : (a :: b :: tl2).getLast h = (b :: tl2).getLast hne :=
        List.getLast_cons hne
      rcases List.mem_cons.mp hx with rfl | hx2
      · right
        rw [hlast]
        exact (List.pairwise_cons.mp hp).1 _ (List.getLast_mem hne)
      · rw [hlast]
        exact ih hne (List.pairwise_cons.mp hp).2 x hx2

/-- The sorted score list is a permutation of the members' scores. -/
theorem rankScores_perm (lobby : LobbyR) (st : QueensState) :
    (rankScores lobby st).Perm (lobby.players.map (mkScore st)) := by
  rw [rankScores]
  exact jsSort_perm _ _

/-- The sorted score list is pairwise ordered by the comparator. -/
theorem rankScores_sorted (lobby : LobbyR) (st : QueensState) :
    (rankScores lobby st).Pairwise (fun a b => scoreLe a b = true) := by
  rw [rankScores]
  exact jsSort_sorted scoreLe scoreLe_trans scoreLe_total _

/-- Ids of the sorted score list are a permutation of the member ids. -/
theorem rankScores_ids_perm (lobby : LobbyR) (st : QueensState) :
    ((rankScores lobby st).map (fun e => e.playerId)).Perm
      (lobby.players.map (fun p => p.id)) := by
  have h1 := (rankScores_perm lobby st).map (fun e => e.playerId)
  rw [List.map_map] at h1
  have h2 : List.map ((fun e => e.playerId) ∘ mkScore st) lobby.players =
      List.map (fun p => p.id) lobby.players :=
    List.map_congr_left (fun p _ => mkScore_playerId st p)
  rwa [h2] at h1

/-- Ids of a filtered slice of the sorted score list are a permutation of
the ids of the correspondingly filtered members. -/
theorem rankScores_filtered_ids_perm (lobby : LobbyR) (st : QueensState)
    (q : ScoreEntry → Bool) (qp : PlayerR → Bool)
    (hq : ∀ p ∈ lobby.players, q (mkScore st p) = qp p) :
    (((rankScores lobby st).filter q).map (fun e => e.playerId)).Perm
      ((lobby.players.filter qp).map (fun p => p.id)) := by
  have h1 := ((rankScores_perm lobby st).filter q).map (fun e => e.playerId)
  rw [List.filter_map, List.map_map] at h1
  rw [List.filter_congr (fun p hp => (show (q ∘ mkScore st) p = qp p from hq p hp))] at h1
  rwa [List.map_congr_left
    (fun p _ => (show ((fun e => e.playerId) ∘ mkScore st) p = p.id from mkScore_playerId st p))] at h1

/-- C10: finishing a round from a non-results phase ranks solvers by
ascending solve time ahead of all non-solvers, and derives the losers as:
everyone when nobody solved; exactly the non-solvers when at least one but
not all solved; exactly the solvers whose time attains the maximum
(slowest) solve time when all solved, so a tie yields several losers. -/
theorem C10_losers_characterization (lobby : LobbyR) (st : QueensState)
    (hphase : st.phase ≠ "results") :
    ∃ res, (finishGame lobby st).1.results = some res ∧
      res.players.Perm (lobby.players.map (mkScore st)) ∧
      res.players.Pairwise rankedBefore ∧
      ((∀ p ∈ lobby.players, solvedAt st p.id = none) →
        (res.losers.map (fun l => l.playerId)).Perm (lobby.players.map (fun p => p.id))) ∧
      ((∃ p ∈ lobby.players, (solvedAt st p.id).isSome = true) →
        (∃ p ∈ lobby.players, solvedAt st p.id = none) →
        (res.losers.map (fun l => l.playerId)).Perm
          ((lobby.players.filter (fun p => (solvedAt st p.id).isNone)).map (fun p => p.id))) ∧
      ((∀ p ∈ lobby.players, (solvedAt st p.id).isSome = true) → lobby.players ≠ [] →
        ∃ T, (∀ p ∈ lobby.players, ∀ t, solvedAt st p.id = some t → t ≤ T) ∧
          (∃ p ∈ lobby.players, solvedAt st p.id = some T) ∧
          (res.losers.map (fun l => l.playerId)).Perm
            ((lobby.players.filter (fun p => solvedAt st p.id = some T)).map
              (fun p => p.id))) := by
  have hperm := rankScores_perm lobby st
  have hsorted := rankScores_sorted lobby st
  have hres : (finishGame lobby st).1.results =
      some { players := rankScores lobby st,
             losers := deriveLosers (rankScores lobby st),
             solution := st.solution } := by
    simp [finishGame, hphase]
  refine ⟨_, hres, hperm, hsorted.imp (fun h => scoreLe_imp_rankedBefore h), ?_, ?_, ?_⟩
  · -- nobody solved: everyone loses
    intro hA
    have hall : ∀ e ∈ rankScores lobby st, e.solved = false := by
      intro e he
      rcases List.mem_map.mp (hperm.mem_iff.mp he) with ⟨p, hp, rfl⟩
      rw [mkScore_solved, hA p hp]
      rfl
    have hsolvnil : (rankScores lobby st).filter (fun p => p.solved) = [] := by
      rw [List.filter_eq_nil_iff]
      intro e he
      simp [hall e he]
    have hL : deriveLosers (rankScores lobby st) = (rankScores lobby st).map noSolveLoser := by
      simp [deriveLosers, hsolvnil]
    dsimp only
    rw [hL, List.map_map]
    exact rankScores_ids_perm lobby st
  · -- some but not all solved: the non-solvers lose
    intro hEx hNon
    obtain ⟨ps, hps, hpsome⟩ := hEx
    obtain ⟨pn, hpn, hpnone⟩ := hNon
    have hmem_s : mkScore st ps ∈ rankScores lobby st :=
      hperm.mem_iff.mpr (List.mem_map.mpr ⟨ps, hps, rfl⟩)
    have hmem_n : mkScore st pn ∈ rankScores lobby st :=
      hperm.mem_iff.mpr (List.mem_map.mpr ⟨pn, hpn, rfl⟩)
    have hsolv_ne : (rankScores lobby st).filter (fun p => p.solved) ≠ [] := by
      apply List.ne_nil_of_mem (a := mkScore st ps)
      rw [List.mem_filter]
      exact ⟨hmem_s, by rw [mkScore_solved]; exact hpsome⟩
    have hnon_pos : 0 < ((rankScores lobby st).filter (fun p => !p.solved)).length := by
      apply List.length_pos.mpr
      apply List.ne_nil_of_mem (a := mkScore st pn)
      rw [List.mem_filter]
      exact ⟨hmem_n, by rw [mkScore_solved, hpnone]; rfl⟩
    have hL : deriveLosers (rankScores lobby st) =
        ((rankScores lobby st).filter (fun p => !p.solved)).map noSolveLoser := by
      simp only [deriveLosers]
      rw [if_neg (by rw [List.length_eq_zero]; exact hsolv_ne), if_pos hnon_pos]
    dsimp only
    rw [hL, List.map_map]
    apply rankScores_filtered_ids_perm lobby st
    intro p _
    rw [mkScore_solved]
    cases h : solvedAt st p.id <;> simp [h]
  · -- all solved: the slowest (ties included) lose
    intro hAll hne
    have hlenp : (rankScores lobby st).length = lobby.players.length := by
      rw [hperm.length_eq, List.length_map]
    have hlen : rankScores lobby st ≠ [] := by
      intro h0
      rw [h0] at hlenp
      exact hne (List.length_eq_zero.mp hlenp.symm)
    have hallsolved : ∀ e ∈ rankScores lobby st, e.solved = true := by
      intro e he
      rcases List.mem_map.mp (hperm.mem_iff.mp he) with ⟨p, hp, rfl⟩
      rw [mkScore_solved]
      exact hAll p hp
    have hsolv_eq : (rankScores lobby st).filter (fun p => p.solved) = rankScores lobby st :=
      List.filter_eq_self.mpr (fun e he => by simpa using hallsolved e he)
    have hnon_nil : (rankScores lobby st).filter (fun p => !p.solved) = [] :=
      List.filter_eq_nil_iff.mpr (fun e he => by simp [hallsolved e he])
    have hlast_mem : (rankScores lobby st).getLast hlen ∈ rankScores lobby st :=
      List.getLast_mem hlen
    rcases List.mem_map.mp (hperm.mem_iff.mp hlast_mem) with ⟨p0, hp0, hp0eq⟩
    obtain ⟨T, hT⟩ := Option.isSome_iff_exists.mp (hAll p0 hp0)
    have hslow : ((rankScores lobby st).getLast hlen).solveTime = some T := by
      rw [← hp0eq, mkScore_solveTime, hT]
    refine ⟨T, ?_, ⟨p0, hp0, hT⟩, ?_⟩
    · intro p hp t ht
      have hmem : mkScore st p ∈ rankScores lobby st :=
        hperm.mem_iff.mpr (List.mem_map.mpr ⟨p, hp, rfl⟩)
      rcases pairwise_rel_getLast _ hlen hsorted _ hmem with heq | hle
      · have hTeq : (mkScore st p).solveTime = some T := by rw [heq]; exact hslow
        rw [mkScore_solveTime, ht] at hTeq
        exact le_of_eq (Option.some.inj hTeq)
      · have hps : (mkScore st p).solved = true := by
          rw [mkScore_solved]; exact hAll p hp
        have hls : ((rankScores lobby st).getLast hlen).solved = true :=
          hallsolved _ hlast_mem
        unfold scoreLe at hle
        rw [hps, hls] at hle
        simp only [Bool.and_self, if_pos] at hle
        rw [mkScore_solveTime, ht, hslow] at hle
        simpa using hle
    · have hgetLastD : (rankScores lobby st).getLastD defaultScoreEntry =
          (rankScores lobby st).getLast hlen := by
        rw [List.getLastD_eq_getLast?, List.getLast?_eq_getLast _ hlen]
        rfl
      have hL : deriveLosers (rankScores lobby st) =
          ((rankScores lobby st).filter (fun p => p.solveTime = some T)).map slowestLoser := by
        simp only [deriveLosers]
        rw [hsolv_eq, hnon_nil]
        rw [if_neg (by rw [List.length_eq_zero]; exact hlen), if_neg (by simp)]
        rw [hgetLastD, hslow]
      dsimp only
      rw [hL, List.map_map]
      apply rankScores_filtered_ids_perm lobby st
      intro p _
      simp [mkScore_solveTime]

/-- Concrete lobby for the C10 witness: two members. -/
def c10Lobby : LobbyR :=
  { code := "ABCD",
    players := [
      { id := "p1", username := "alice", isHost := true, lobbyCode := some "ABCD" },
      { id := "p2", username := "bobby", isHost := false, lobbyCode := some "ABCD" }],
    hostId := "p1", currentGame := some "queens" }

/-- Concrete round state for the C10 witness: both players solved, with a
tie at the slowest time. -/
def c10State : QueensState :=
  { phase := "playing", grid := [], solution := [],
    solvedPlayers := [
      ("p1", { solveTime := 5000, username := "alice" }),
      ("p2", { solveTime := 5000, username := "bobby" })],
    phaseStartTime := some 5, results := none }

/-- C10 witness: the characterization applied to a concrete all-solved tie. -/
theorem C10_losers_characterization_witness :
    ∃ res, (finishGame c10Lobby c10State).1.results = some res ∧
      res.players.Perm (c10Lobby.players.map (mkScore c10State)) ∧
      res.players.Pairwise rankedBefore ∧
      ((∀ p ∈ c10Lobby.players, solvedAt c10State p.id = none) →
        (res.losers.map (fun l => l.playerId)).Perm (c10Lobby.players.map (fun p => p.id))) ∧
      ((∃ p ∈ c10Lobby.players, (solvedAt c10State p.id).isSome = true) →
        (∃ p ∈ c10Lobby.players, solvedAt c10State p.id = none) →
        (res.losers.map (fun l => l.playerId)).Perm
          ((c10Lobby.players.filter (fun p => (solvedAt c10State p.id).isNone)).map
            (fun p => p.id))) ∧
      ((∀ p ∈ c10Lobby.players, (solvedAt c10State p.id).isSome = true) →
        c10Lobby.players ≠ [] →
        ∃ T, (∀ p ∈ c10Lobby.players, ∀ t, solvedAt c10State p.id = some t → t ≤ T) ∧
          (∃ p ∈ c10Lobby.players, solvedAt c10State p.id = some T) ∧
          (res.losers.map (fun l => l.playerId)).Perm
            ((c10Lobby.players.filter (fun p => solvedAt c10State p.id = some T)).map
              (fun p => p.id))) :=
  C10_losers_characterization c10Lobby c10State (by decide)

/-! ## C3: the solution verifier -/

/-- A JavaScript `Set` has as many elements as the list it was built from
exactly when the list has no duplicates. -/
theorem dedup_length_eq_iff {α : Type _} [DecidableEq α] (l : List α) :
    l.dedup.length = l.length ↔ l.Nodup := by
  constructor
  · intro h
    have heq := List.Sublist.eq_of_length (List.dedup_sublist l) h
    rw [← heq]
    exact List.nodup_dedup l
  · intro h
    rw [List.dedup_eq_self.mpr h]

/-- A 6-element list of integers in `[0, 6)` has no duplicates exactly when
every value of `[0, 6)` occurs exactly once. -/
theorem nodup_iff_each_once (l : List Int) (hlen : l.length = 6)
    (hb : ∀ x ∈ l, 0 ≤ x ∧ x < 6) :
    l.Nodup ↔ ∀ r : Int, 0 ≤ r → r < 6 → l.count r = 1 := by
  have hsubset : l ⊆ [0, 1, 2, 3, 4, 5] := by
    intro x hx
    have hx6 := hb x hx
    have : x = 0 ∨ x = 1 ∨ x = 2 ∨ x = 3 ∨ x = 4 ∨ x = 5 := by omega
    rcases this with rfl | rfl | rfl | rfl | rfl | rfl <;> simp
  constructor
  · intro hnd r h0 h6
    have hperm : l.Perm [0, 1, 2, 3, 4, 5] :=
      (List.subperm_of_subset hnd hsubset).perm_of_length_le (by rw [hlen]; rfl)
    rw [hperm.count_eq]
    have : r = 0 ∨ r = 1 ∨ r = 2 ∨ r = 3 ∨ r = 4 ∨ r = 5 := by omega
    rcases this with rfl | rfl | rfl | rfl | rfl | rfl <;> decide
  · intro hc
    rw [List.nodup_iff_count_le_one]
    intro a
    by_cases ha : a ∈ l
    · have hba := hb a ha
      exact le_of_eq (hc a hba.1 hba.2)
    · rw [List.count_eq_zero_of_not_mem ha]
      exact Nat.zero_le 1

/-- The claim's "row r used exactly once" as a filter length equals the
count of `r` among the mapped values. -/
theorem filter_length_eq_count (f : QPos → Int) (queens : List QPos) (r : Int) :
    (queens.filter (fun q => f q = r)).length = (queens.map f).count r := by
  rw [List.count, List.countP_map, ← List.countP_eq_length_filter]
  apply List.countP_congr
  intro q _
  by_cases h : f q = r <;> simp [h]

/-- Mapped values are duplicate-free exactly when the original entries have
pairwise distinct images. -/
theorem nodup_map_iff_pairwise_ne {α β : Type _} (f : α → β) :
    ∀ l : List α, (l.map f).Nodup ↔ l.Pairwise (fun a b => f a ≠ f b) := by
  intro l
  induction l with
  | nil => simp
  | cons a tl ih =>
    rw [List.map_cons, List.nodup_cons, List.pairwise_cons, ih]
    constructor
    · rintro ⟨h1, h2⟩
      exact ⟨fun b hb he => h1 (List.mem_map.mpr ⟨b, hb, he.symm⟩), h2⟩
    · rintro ⟨h1, h2⟩
      refine ⟨fun hmem => ?_, h2⟩
      rcases List.mem_map.mp hmem with ⟨b, hb, he⟩
      exact h1 b hb he.symm

/-- Negated king adjacency, read back as the claim's proposition. -/
theorem not_qAdjacent_iff (a b : QPos) :
    (!(qAdjacent a b)) = true ↔
      ¬((a.row - b.row).natAbs ≤ 1 ∧ (a.col - b.col).natAbs ≤ 1) := by
  by_cases h1 : (a.row - b.row).natAbs ≤ 1 <;>
    by_cases h2 : (a.col - b.col).natAbs ≤ 1 <;>
      simp [qAdjacent, h1, h2]

/-- The adjacency double loop checks exactly the pairwise property. -/
theorem pairwiseNonAdjacent_iff :
    ∀ queens : List QPos,
      pairwiseNonAdjacent queens = true ↔
        queens.Pairwise (fun a b =>
          ¬((a.row - b.row).natAbs ≤ 1 ∧ (a.col - b.col).natAbs ≤ 1)) := by
  intro queens
  induction queens with
  | nil => simp [pairwiseNonAdjacent]
  | cons q tl ih =>
    rw [pairwiseNonAdjacent, Bool.and_eq_true, List.all_eq_true, ih, List.pairwise_cons]
    constructor
    · rintro ⟨h1, h2⟩
      exact ⟨fun b hb => (not_qAdjacent_iff q b).mp (h1 b hb), h2⟩
    · rintro ⟨h1, h2⟩
      exact ⟨fun b hb => (not_qAdjacent_iff q b).mpr (h1 b hb), h2⟩

/-- For 6 queens with in-range images, the `Set`-size check on the mapped
values says exactly that every value in `[0, 6)` is used exactly once. -/
theorem dedup_six_iff_each_once (f : QPos → Int) (queens : List QPos)
    (hlen : queens.length = 6) (hb : ∀ q ∈ queens, 0 ≤ f q ∧ f q < 6) :
    (queens.map f).dedup.length = 6 ↔
      ∀ r : Int, 0 ≤ r → r < 6 → (queens.filter (fun q => f q = r)).length = 1 := by
  have hmlen : (queens.map f).length = 6 := by rw [List.length_map, hlen]
  have hmb : ∀ x ∈ queens.map f, 0 ≤ x ∧ x < 6 := by
    intro x hx
    rcases List.mem_map.mp hx with ⟨q, hq, rfl⟩
    exact hb q hq
  rw [show (6 : Nat) = (queens.map f).length from hmlen.symm, dedup_length_eq_iff,
    nodup_iff_each_once _ hmlen hmb]
  constructor
  · intro h r h0 h6
    rw [filter_length_eq_count]
    exact h r h0 h6
  · intro h r h0 h6
    rw [← filter_length_eq_count f]
    exact h r h0 h6

/-- For 6 queens, the `Set`-size check on the mapped values says exactly
that the images are pairwise distinct. -/
theorem dedup_six_iff_pairwise_ne (f : QPos → Int) (queens : List QPos)
    (hlen : queens.length = 6) :
    (queens.map f).dedup.length = 6 ↔ queens.Pairwise (fun a b => f a ≠ f b) := by
  have hmlen : (queens.map f).length = 6 := by rw [List.length_map, hlen]
  rw [show (6 : Nat) = (queens.map f).length from hmlen.symm, dedup_length_eq_iff,
    nodup_map_iff_pairwise_ne]

/-- The claim's reading of the verifier: exactly 6 in-bounds cells, each of
the 6 rows used exactly once, each of the 6 columns used exactly once, the
6 region ids pairwise distinct, and no two cells within Chebyshev distance
1 of each other. -/
def queensSpecOk (grid : Grid) (queens : List QPos) : Prop :=
  queens.length = 6 ∧
  (∀ q ∈ queens, 0 ≤ q.row ∧ q.row < 6 ∧ 0 ≤ q.col ∧ q.col < 6) ∧
  (∀ r : Int, 0 ≤ r → r < 6 → (queens.filter (fun q => q.row = r)).length = 1) ∧
  (∀ c : Int, 0 ≤ c → c < 6 → (queens.filter (fun q => q.col = c)).length = 1) ∧
  queens.Pairwise (fun a b => getCellI grid a.row a.col ≠ getCellI grid b.row b.col) ∧
  queens.Pairwise (fun a b => ¬((a.row - b.row).natAbs ≤ 1 ∧ (a.col - b.col).natAbs ≤ 1))

/-- C3: the verifier accepts a submission exactly when all four constraint
families of the claim hold simultaneously. -/
theorem C3_validateSolution_iff (grid : Grid) (queens : List QPos) :
    validateSolution grid queens = true ↔ queensSpecOk grid queens := by
  rw [validateSolution, queensSpecOk]
  simp only [Bool.and_eq_true, decide_eq_true_eq, List.all_eq_true, GRID_SIZE]
  constructor
  · rintro ⟨⟨⟨⟨⟨hlen, hb⟩, hrows⟩, hcols⟩, hregs⟩, hadj⟩
    have hb2 : ∀ q ∈ queens, 0 ≤ q.row ∧ q.row < 6 ∧ 0 ≤ q.col ∧ q.col < 6 := by
      intro q hq
      have h := hb q hq
      tauto
    refine ⟨hlen, hb2, ?_, ?_, ?_, ?_⟩
    · exact (dedup_six_iff_each_once (fun q => q.row) queens hlen
        (fun q hq => ⟨(hb2 q hq).1, (hb2 q hq).2.1⟩)).mp hrows
    · exact (dedup_six_iff_each_once (fun q => q.col) queens hlen
        (fun q hq => ⟨(hb2 q hq).2.2.1, (hb2 q hq).2.2.2⟩)).mp hcols
    · exact (dedup_six_iff_pairwise_ne (fun q => getCellI grid q.row q.col) queens hlen).mp hregs
    · exact (pairwiseNonAdjacent_iff queens).mp hadj
  · rintro ⟨hlen, hb, hrows, hcols, hregs, hadj⟩
    have hb2 : ∀ q ∈ queens, ((0 ≤ q.row ∧ q.row < 6) ∧ 0 ≤ q.col) ∧ q.col < 6 := by
      intro q hq
      have h := hb q hq
      tauto
    refine ⟨⟨⟨⟨⟨hlen, hb2⟩, ?_⟩, ?_⟩, ?_⟩, ?_⟩
    · exact (dedup_six_iff_each_once (fun q => q.row) queens hlen
        (fun q hq => ⟨(hb q hq).1, (hb q hq).2.1⟩)).mpr hrows
    · exact (dedup_six_iff_each_once (fun q => q.col) queens hlen
        (fun q hq => ⟨(hb q hq).2.2.1, (hb q hq).2.2.2⟩)).mpr hcols
    · exact (dedup_six_iff_pairwise_ne (fun q => getCellI grid q.row q.col) queens hlen).mpr hregs
    · exact (pairwiseNonAdjacent_iff queens).mpr hadj

/-! ## The poker hand evaluator (handEvaluator module of the repository).
`getRankValue` is imported there from `utils/deck`. -/

/-- Modelled from the spec: `getRankValue` lives in `utils/deck.js`, which is
not among the provided sources; the spec fixes the standard mapping — ranks
2..10 at face value, J, Q, K, A at 11..14 (ace high), used "high card
through straight/royal flush" with A-2-3-4-5 handled separately. -/
def getRankValue (rank : String) : Nat :=
  if rank = "A" then 14
  else if rank = "K" then 13
  else if rank = "Q" then 12
  else if rank = "J" then 11
  else if rank = "10" then 10
  else if rank = "9" then 9
  else if rank = "8" then 8
  else if rank = "7" then 7
  else if rank = "6" then 6
  else if rank = "5" then 5
  else if rank = "4" then 4
  else if rank = "3" then 3
  else if rank = "2" then 2
  else 0

/-- A playing card (rank and suit strings, as in the deck module). -/
structure Card where
  rank : String
  suit : String
deriving DecidableEq, Repr

/-- The result of `evaluateHand`: category (1 = high card .. 10 = royal
flush), the category-specific tie-break vector, and the display name. -/
structure HandEval where
  rank : Nat
  values : List Nat
  name : String
deriving DecidableEq, Repr

/-- Sort comparator `(a, b) => getRankValue(b.rank) - getRankValue(a.rank)`
as the boolean "a precedes b": descending rank value. -/
def rankDescLe (a b : Card) : Bool :=
  getRankValue b.rank ≤ getRankValue a.rank

/-- The wheel pattern A-2-3-4-5 on the descending rank list. -/
def isWheel (ranks : List Nat) : Bool :=
  ranks.getD 0 0 = 14 && ranks.getD 1 0 = 5 && ranks.getD 2 0 = 4 &&
  ranks.getD 3 0 = 3 && ranks.getD 4 0 = 2

/-- The gap scan of `checkStraight`: on the first non-unit gap the source
falls back to the wheel test on the whole rank list. -/
def checkStraightAux (full : List Nat) : List Nat → Bool
  | a :: b :: rest => if a - b = 1 then checkStraightAux full (b :: rest) else isWheel full
  | _ => true

/-- `checkStraight(ranks)` for the descending rank list. -/
def checkStraight (ranks : List Nat) : Bool :=
  checkStraightAux ranks ranks

/-- `getStraightHighCard`: the 5 tops a wheel, otherwise the first rank. -/
def getStraightHighCard (ranks : List Nat) : List Nat :=
  if ranks.getD 0 0 = 14 && ranks.getD 1 0 = 5 then [5] else [ranks.getD 0 0]

/-- `getRankCounts`: the JavaScript object keyed by numeric rank, whose
`Object.entries` iterate integer-like keys in ascending order; rank values
are below 15, so scanning `0..14` reproduces that order. -/
def rankCounts (ranks : List Nat) : List (Nat × Nat) :=
  (List.range 15).filterMap (fun r =>
    let c := ranks.count r
    if c = 0 then none else some (r, c))

/-- `findRankWithCount`: first entry (ascending rank) with the given count;
`none` for the source's `null`. -/
def findRankWithCount (counts : List (Nat × Nat)) (c : Nat) : Option Nat :=
  (counts.find? (fun e => e.2 = c)).map (fun e => e.1)

/-- `findAllRanksWithCount`. -/
def findAllRanksWithCount (counts : List (Nat × Nat)) (c : Nat) : List Nat :=
  (counts.filter (fun e => e.2 = c)).map (fun e => e.1)

/-- The descending rank values of a hand. -/
def cardRanks (cards : List Card) : List Nat :=
  (jsSort rankDescLe cards).map (fun c => getRankValue c.rank)

/-- The suits in the same order. -/
def cardSuits (cards : List Card) : List String :=
  (jsSort rankDescLe cards).map (fun c => c.suit)

/-- `suits.every(s => s === suits[0])`. -/
def isFlushB (cards : List Card) : Bool :=
  (cardSuits cards).all (fun s => s = (cardSuits cards).getD 0 "")

/-- The rank-multiplicity values sorted descending
(`Object.values(rankCounts).sort((a, b) => b - a)`). -/
def countValuesDesc (counts : List (Nat × Nat)) : List Nat :=
  jsSort (fun a b => decide (b ≤ a)) (counts.map (fun e => e.2))

/-- `evaluateHand(cards)`: category dispatch in source order.  The source's
`findRankWithCount` results are non-null in every branch that uses them;
`getD 0` stands for that unreachable `null`. -/
def evaluateHand (cards : List Card) : HandEval :=
  let ranks := cardRanks cards
  let counts := rankCounts ranks
  let countValues := countValuesDesc counts
  let isStraightB := checkStraight ranks
  if isFlushB cards && isStraightB then
    if ranks.getD 0 0 = 14 && ranks.getD 1 0 = 13 then
      { rank := 10, values := ranks, name := "Royal Flush" }
    else
      { rank := 9, values := getStraightHighCard ranks, name := "Straight Flush" }
  else if countValues.getD 0 0 = 4 then
    { rank := 8,
      values := [(findRankWithCount counts 4).getD 0, (findRankWithCount counts 1).getD 0],
      name := "Four of a Kind" }
  else if countValues.getD 0 0 = 3 && countValues.getD 1 0 = 2 then
    { rank := 7,
      values := [(findRankWithCount counts 3).getD 0, (findRankWithCount counts 2).getD 0],
      name := "Full House" }
  else if isFlushB cards then
    { rank := 6, values := ranks, name := "Flush" }
  else if isStraightB then
    { rank := 5, values := getStraightHighCard ranks, name := "Straight" }
  else if countValues.getD 0 0 = 3 then
    let tripRank := (findRankWithCount counts 3).getD 0
    { rank := 4, values := tripRank :: ranks.filter (fun r => r ≠ tripRank),
      name := "Three of a Kind" }
  else if countValues.getD 0 0 = 2 && countValues.getD 1 0 = 2 then
    let pairs := jsSort (fun a b => decide (b ≤ a)) (findAllRanksWithCount counts 2)
    { rank := 3, values := pairs ++ [(findRankWithCount counts 1).getD 0],
      name := "Two Pair" }
  else if countValues.getD 0 0 = 2 then
    let pairRank := (findRankWithCount counts 2).getD 0
    { rank := 2, values := pairRank :: ranks.filter (fun r => r ≠ pairRank),
      name := "Pair" }
  else
    { rank := 1, values := ranks, name := "High Card" }

/-- The tie-break comparison loop of `compareHands`.  The source indexes
both vectors by `hand1.values` positions; hands of equal category have
equally long vectors (proved below), so pairing positionally is exact on
every comparison the module performs. -/
def cmpValues : List Nat → List Nat → Int
  | a :: as, b :: bs => if a ≠ b then (a : Int) - (b : Int) else cmpValues as bs
  | _, _ => 0

/-- `compareHands`: positive when the first hand is better. -/
def compareHands (h1 h2 : HandEval) : Int :=
  if h1.rank ≠ h2.rank then (h1.rank : Int) - (h2.rank : Int)
  else cmpValues h1.values h2.values

/-- `getCombinations(arr, k)` in the source's enumeration order. -/
def getCombinations {α : Type _} : List α → Nat → List (List α)
  | _, 0 => [[]]
  | [], _ + 1 => []
  | x :: xs, k + 1 =>
    (getCombinations xs k).map (fun l => x :: l) ++ getCombinations xs (k + 1)

/-- The spread `\x7b ...bestHand, cards: bestCards \x7d` of `findBestHand`. -/
structure BestHand where
  rank : Nat
  values : List Nat
  name : String
  cards : List Card
deriving DecidableEq, Repr

/-- One step of the best-hand fold: keep the incumbent unless the new
combination compares strictly greater. -/
def bestStep (acc : Option (HandEval × List Card)) (combo : List Card) :
    Option (HandEval × List Card) :=
  let hand := evaluateHand combo
  match acc with
  | none => some (hand, combo)
  | some (bh, bc) => if 0 < compareHands hand bh then some (hand, combo) else some (bh, bc)

/-- `findBestHand(holeCards, communityCards)`: fold the comparison over all
C(7,5) combinations; `none` only when there is no 5-card combination. -/
def findBestHand (hole community : List Card) : Option BestHand :=
  let combos := getCombinations (hole ++ community) 5
  (combos.foldl bestStep none).map (fun p =>
    { rank := p.1.rank, values := p.1.values, name := p.1.name, cards := p.2 })

/-! ## C4: combinatorics of the best-hand search -/

theorem getCombinations_length {α : Type _} :
    ∀ (l : List α) (k : Nat), (getCombinations l k).length = l.length.choose k := by
  intro l
  induction l with
  | nil =>
    intro k
    cases k with
    | zero => simp [getCombinations]
    | succ k => simp [getCombinations]
  | cons x xs ih =>
    intro k
    cases k with
    | zero => simp [getCombinations]
    | succ k =>
      simp [getCombinations, ih, Nat.choose_succ_succ, Nat.add_comm]

theorem length_of_mem_getCombinations {α : Type _} :
    ∀ (l : List α) (k : Nat) (c : List α), c ∈ getCombinations l k → c.length = k := by
  intro l
  induction l with
  | nil =>
    intro k c hc
    cases k with
    | zero =>
      simp [getCombinations] at hc
      simp [hc]
    | succ k => simp [getCombinations] at hc
  | cons x xs ih =>
    intro k c hc
    cases k with
    | zero =>
      simp [getCombinations] at hc
      simp [hc]
    | succ k =>
      rw [getCombinations, List.mem_append] at hc
      rcases hc with hc | hc
      · rcases List.mem_map.mp hc with ⟨l2, hl2, rfl⟩
        simp [ih k l2 hl2]
      · exact ih (k + 1) c hc

/-! ## C4: the comparison is a total order on equally shaped hands -/

theorem cmpValues_self : ∀ l : List Nat, cmpValues l l = 0 := by
  intro l
  induction l with
  | nil => rfl
  | cons a as ih => simp [cmpValues, ih]

theorem cmpValues_antisymm : ∀ l1 l2 : List Nat, cmpValues l1 l2 = -cmpValues l2 l1 := by
  intro l1
  induction l1 with
  | nil => intro l2; cases l2 <;> rfl
  | cons a as ih =>
    intro l2
    cases l2 with
    | nil => rfl
    | cons b bs =>
      by_cases hab : a = b
      · subst hab
        simp [cmpValues, ih bs]
      · have hba : b ≠ a := fun h => hab h.symm
        rw [cmpValues, cmpValues, if_pos hab, if_pos hba]
        omega

theorem cmpValues_trans :
    ∀ l1 l2 l3 : List Nat, l1.length = l2.length → l2.length = l3.length →
      cmpValues l1 l2 ≤ 0 → cmpValues l2 l3 ≤ 0 → cmpValues l1 l3 ≤ 0 := by
  intro l1
  induction l1 with
  | nil =>
    intro l2 l3 h12 h23 _ _
    cases l3 with
    | nil => simp [cmpValues]
    | cons c cs =>
      simp at h12
      rw [← h12] at h23
      simp at h23
  | cons a as ih =>
    intro l2 l3 h12 h23 hc12 hc23
    cases l2 with
    | nil => simp at h12
    | cons b bs =>
      cases l3 with
      | nil => simp at h23
      | cons c cs =>
        simp only [List.length_cons] at h12 h23
        by_cases hab : a = b
        · by_cases hbc : b = c
          · subst hab
            subst hbc
            rw [cmpValues, if_neg (by omega)] at hc12 hc23 ⊢
            exact ih bs cs (by omega) (by omega) hc12 hc23
          · subst hab
            rw [cmpValues, if_pos hbc] at hc23
            rw [cmpValues, if_pos hbc]
            exact hc23
        · by_cases hbc : b = c
          · subst hbc
            rw [cmpValues, if_pos hab] at hc12
            rw [cmpValues, if_pos hab]
            exact hc12
          · rw [cmpValues, if_pos hab] at hc12
            rw [cmpValues, if_pos hbc] at hc23
            have hac : a ≠ c := by omega
            rw [cmpValues, if_pos hac]
            omega

theorem compareHands_self (h : HandEval) : compareHands h h = 0 := by
  simp [compareHands, cmpValues_self]

theorem compareHands_antisymm (h1 h2 : HandEval) :
    compareHands h1 h2 = -compareHands h2 h1 := by
  by_cases hr : h1.rank = h2.rank
  · rw [compareHands, compareHands, if_neg (by omega), if_neg (by omega)]
    exact cmpValues_antisymm h1.values h2.values
  · have hr2 : h2.rank ≠ h1.rank := fun h => hr h.symm
    rw [compareHands, compareHands, if_pos hr, if_pos hr2]
    omega

theorem compareHands_trans (h1 h2 h3 : HandEval)
    (s12 : h1.rank = h2.rank → h1.values.length = h2.values.length)
    (s23 : h2.rank = h3.rank → h2.values.length = h3.values.length)
    (hc12 : compareHands h1 h2 ≤ 0) (hc23 : compareHands h2 h3 ≤ 0) :
    compareHands h1 h3 ≤ 0 := by
  by_cases r12 : h1.rank = h2.rank
  · by_cases r23 : h2.rank = h3.rank
    · have r13 : h1.rank = h3.rank := r12.trans r23
      rw [compareHands, if_neg (by omega)] at hc12 hc23 ⊢
      exact cmpValues_trans _ _ _ (s12 r12) (s23 r23) hc12 hc23
    · rw [compareHands, if_pos r23] at hc23
      have r13 : h1.rank ≠ h3.rank := by omega
      rw [compareHands, if_pos r13, r12]
      exact hc23
  · by_cases r23 : h2.rank = h3.rank
    · rw [compareHands, if_pos r12] at hc12
      have r13 : h1.rank ≠ h3.rank := by omega
      rw [compareHands, if_pos r13, ← r23]
      exact hc12
    · rw [compareHands, if_pos r12] at hc12
      rw [compareHands, if_pos r23] at hc23
      have r13 : h1.rank ≠ h3.rank := by omega
      rw [compareHands, if_pos r13]
      omega

/-! ## C4: shape of the tie-break vector per category -/

/-- Length of the tie-break vector produced for each category. -/
def valuesLen : Nat → Nat
  | 1 => 5
  | 2 => 4
  | 3 => 3
  | 4 => 3
  | 5 => 1
  | 6 => 5
  | 7 => 2
  | 8 => 2
  | 9 => 1
  | 10 => 5
  | _ => 0

theorem ite_lt {c : Prop} [Decidable c] {a b n : Nat} (ha : a < n) (hb : b < n) :
    (if c then a else b) < n := by
  by_cases h : c
  · rw [if_pos h]
    exact ha
  · rw [if_neg h]
    exact hb

theorem getRankValue_lt (s : String) : getRankValue s < 15 := by
  rw [getRankValue]
  repeat' apply ite_lt
  all_goals omega

theorem getStraightHighCard_length (ranks : List Nat) :
    (getStraightHighCard ranks).length = 1 := by
  rw [getStraightHighCard]
  split_ifs <;> rfl

theorem sum_map_add {α : Type _} (f g : α → Nat) :
    ∀ l : List α, (l.map (fun x => f x + g x)).sum = (l.map f).sum + (l.map g).sum := by
  intro l
  induction l with
  | nil => rfl
  | cons x xs ih =>
    simp [ih]
    omega

theorem indicator_sum_range (a n : Nat) (h : a < n) :
    ((List.range n).map (fun r => if r = a then 1 else 0)).sum = 1 := by
  induction n with
  | zero => omega
  | succ n ih =>
    rw [List.range_succ, List.map_append, List.sum_append]
    by_cases han : a = n
    · subst han
      have hz : ((List.range a).map (fun r => if r = a then 1 else 0)).sum = 0 := by
        apply List.sum_eq_zero
        intro x hx
        rcases List.mem_map.mp hx with ⟨r, hr, rfl⟩
        have := List.mem_range.mp hr
        simp
        omega
      simp [hz]
    · have ha : a < n := by omega
      simp [ih ha]
      omega

theorem sum_counts_range (n : Nat) :
    ∀ l : List Nat, (∀ r ∈ l, r < n) →
      ((List.range n).map (fun r => l.count r)).sum = l.length := by
  intro l
  induction l with
  | nil => intro _; simp
  | cons a tl ih =>
    intro hb
    have ha : a < n := hb a (by simp)
    have htl : ∀ r ∈ tl, r < n := fun r hr => hb r (by simp [hr])
    have hcount : ∀ r, (a :: tl).count r = tl.count r + (if r = a then 1 else 0) := by
      intro r
      rw [List.count_cons]
      by_cases h : r = a
      · simp [h]
      · simp [h]
        omega
    have hmapeq : (List.range n).map (fun r => (a :: tl).count r) =
        (List.range n).map (fun r => tl.count r + (if r = a then 1 else 0)) :=
      List.map_congr_left (fun r _ => hcount r)
    rw [hmapeq, sum_map_add, ih htl, indicator_sum_range a n ha]
    simp

theorem rankCounts_sum (l : List Nat) (hb : ∀ r ∈ l, r < 15) :
    ((rankCounts l).map (fun e => e.2)).sum = l.length := by
  rw [rankCounts]
  have h1 : ∀ rs : List Nat,
      ((rs.filterMap (fun r =>
        let c := l.count r
        if c = 0 then none else some (r, c))).map (fun e => e.2)).sum =
      (rs.map (fun r => l.count r)).sum := by
    intro rs
    induction rs with
    | nil => rfl
    | cons r rest ih =>
      simp only [List.filterMap_cons]
      by_cases hc : l.count r = 0
      · rw [if_pos hc, List.map_cons, List.sum_cons, hc, Nat.zero_add]
        exact ih
      · rw [if_neg hc, List.map_cons, List.sum_cons, List.map_cons, List.sum_cons, ih]
  rw [h1]
  exact sum_counts_range 15 l hb

theorem mem_rankCounts {l : List Nat} {e : Nat × Nat} (h : e ∈ rankCounts l) :
    l.count e.1 = e.2 ∧ 0 < e.2 := by
  rw [rankCounts] at h
  rcases List.mem_filterMap.mp h with ⟨r, _, hfr⟩
  dsimp only at hfr
  by_cases hc : l.count r = 0
  · rw [if_pos hc] at hfr
    exact absurd hfr (by simp)
  · rw [if_neg hc] at hfr
    cases hfr
    exact ⟨rfl, Nat.pos_of_ne_zero hc⟩

theorem findRankWithCount_count {l : List Nat} {k r : Nat}
    (h : findRankWithCount (rankCounts l) k = some r) :
    l.count r = k := by
  rw [findRankWithCount] at h
  rcases hfind : (rankCounts l).find? (fun e => e.2 = k) with _ | e
  · rw [hfind] at h
    simp at h
  · rw [hfind] at h
    have h2 : e.1 = r := by simpa using h
    have hmem := List.mem_of_find?_eq_some hfind
    have hpred := List.find?_some hfind
    simp only [decide_eq_true_eq] at hpred
    have hcount := (mem_rankCounts hmem).1
    rw [← h2, hcount, hpred]

/-- A non-default head of a sorted list comes from the unsorted list. -/
theorem getD_jsSort_mem {m : List Nat} {le : Nat → Nat → Bool} {k : Nat} (hk : k ≠ 0)
    (h : (jsSort le m).getD 0 0 = k) : k ∈ m := by
  rcases hms : jsSort le m with _ | ⟨a, rest⟩
  · rw [hms] at h
    simp [List.getD] at h
    omega
  · rw [hms] at h
    simp [List.getD] at h
    have hmem : a ∈ jsSort le m := by
      rw [hms]
      simp
    rw [h] at hmem
    exact jsSort_mem.mp hmem

theorem count_two_of_heads : ∀ {cv : List Nat}, cv.getD 0 0 = 2 → cv.getD 1 0 = 2 →
    2 ≤ cv.count 2 := by
  intro cv
  match cv with
  | [] => intro h0 _; simp [List.getD] at h0
  | [a] => intro _ h1; simp [List.getD] at h1
  | a :: b :: rest =>
    intro h0 h1
    simp [List.getD] at h0 h1
    subst h0
    subst h1
    simp [List.count_cons]

theorem mul_count_le_sum (a : Nat) : ∀ l : List Nat, a * l.count a ≤ l.sum := by
  intro l
  induction l with
  | nil => simp
  | cons x xs ih =>
    rw [List.count_cons, List.sum_cons]
    by_cases h : a = x
    · subst h
      have hbeq : (a == a) = true := by simp
      rw [hbeq, if_pos rfl, Nat.mul_succ]
      omega
    · have hbeq : (x == a) = false := by
        rw [beq_eq_false_iff_ne]
        exact fun he => h he.symm
      rw [hbeq]
      simp only [Bool.false_eq_true, if_false, Nat.add_zero]
      omega

theorem length_filter_ne (a : Nat) : ∀ l : List Nat,
    (l.filter (fun r => r ≠ a)).length = l.length - l.count a := by
  intro l
  induction l with
  | nil => rfl
  | cons x xs ih =>
    have hcle := List.count_le_length a xs
    simp only [ne_eq, decide_not] at ih
    by_cases h : x = a
    · subst h
      simp [List.filter_cons, List.count_cons, ih]
      try omega
    · have h2 : (x == a) = false := by
        rw [beq_eq_false_iff_ne]
        exact h
      simp [List.filter_cons, List.count_cons, h, h2, ih]
      try omega

/-- Every category tags a tie-break vector of the length fixed by
`valuesLen`: the evaluator's vectors are equally long whenever the
categories agree. -/
theorem evaluateHand_shape (cards : List Card) (h5 : cards.length = 5) :
    (evaluateHand cards).values.length = valuesLen (evaluateHand cards).rank := by
  have hr5 : (cardRanks cards).length = 5 := by
    rw [cardRanks, List.length_map, jsSort_length, h5]
  have hb15 : ∀ r ∈ cardRanks cards, r < 15 := by
    intro r hr
    rcases List.mem_map.mp hr with ⟨c, _, rfl⟩
    exact getRankValue_lt c.rank
  have hsum : ((rankCounts (cardRanks cards)).map (fun e => e.2)).sum = 5 := by
    rw [rankCounts_sum _ hb15, hr5]
  have hfindRank : ∀ k : Nat, k ≠ 0 →
      (countValuesDesc (rankCounts (cardRanks cards))).getD 0 0 = k →
      ∃ r, findRankWithCount (rankCounts (cardRanks cards)) k = some r ∧
        (cardRanks cards).count r = k := by
    intro k hk hhead
    rw [countValuesDesc] at hhead
    obtain ⟨e, hemem, he2⟩ := List.mem_map.mp (getD_jsSort_mem hk hhead)
    have hsome : ((rankCounts (cardRanks cards)).find? (fun e => e.2 = k)).isSome :=
      List.find?_isSome.mpr ⟨e, hemem, by simp [he2]⟩
    obtain ⟨e2, hfind⟩ := Option.isSome_iff_exists.mp hsome
    refine ⟨e2.1, ?_, ?_⟩
    · rw [findRankWithCount, hfind]
      rfl
    · exact findRankWithCount_count (by rw [findRankWithCount, hfind]; rfl)
  simp only [evaluateHand]
  by_cases h1 : (isFlushB cards && checkStraight (cardRanks cards)) = true
  · rw [if_pos h1]
    by_cases h2 :
        ((cardRanks cards).getD 0 0 = 14 && ((cardRanks cards).getD 1 0 = 13) : Bool) = true
    · rw [if_pos h2]
      have hv : valuesLen 10 = 5 := rfl
      dsimp only
      rw [hv]
      exact hr5
    · rw [if_neg h2]
      have hv : valuesLen 9 = 1 := rfl
      dsimp only
      rw [hv]
      exact getStraightHighCard_length _
  · rw [if_neg h1]
    by_cases h4 : (countValuesDesc (rankCounts (cardRanks cards))).getD 0 0 = 4
    · rw [if_pos h4]
      rfl
    · rw [if_neg h4]
      by_cases h7 :
          ((countValuesDesc (rankCounts (cardRanks cards))).getD 0 0 = 3 &&
            ((countValuesDesc (rankCounts (cardRanks cards))).getD 1 0 = 2) : Bool) = true
      · rw [if_pos h7]
        rfl
      · rw [if_neg h7]
        by_cases hfl : isFlushB cards = true
        · rw [if_pos hfl]
          have hv : valuesLen 6 = 5 := rfl
          dsimp only
          rw [hv]
          exact hr5
        · rw [if_neg hfl]
          by_cases hst : checkStraight (cardRanks cards) = true
          · rw [if_pos hst]
            have hv : valuesLen 5 = 1 := rfl
            dsimp only
            rw [hv]
            exact getStraightHighCard_length _
          · rw [if_neg hst]
            by_cases h3 : (countValuesDesc (rankCounts (cardRanks cards))).getD 0 0 = 3
            · rw [if_pos h3]
              obtain ⟨r, hfr, hcr⟩ := hfindRank 3 (by omega) h3
              have hlenf : ((cardRanks cards).filter (fun x => x ≠ r)).length = 2 := by
                rw [length_filter_ne, hr5, hcr]
              have hv : valuesLen 4 = 3 := rfl
              dsimp only
              rw [hv, hfr, List.length_cons]
              simp only [Option.getD_some]
              rw [hlenf]
            · rw [if_neg h3]
              by_cases h22 :
                  ((countValuesDesc (rankCounts (cardRanks cards))).getD 0 0 = 2 &&
                    ((countValuesDesc (rankCounts (cardRanks cards))).getD 1 0 = 2) : Bool) =
                    true
              · rw [if_pos h22]
                have h22p := h22
                simp only [Bool.and_eq_true, decide_eq_true_eq] at h22p
                obtain ⟨h220, h221⟩ := h22p
                rw [countValuesDesc] at h220 h221
                have hcv :=
                  (jsSort_perm (fun a b => decide (b ≤ a))
                    ((rankCounts (cardRanks cards)).map (fun e => e.2))).count_eq 2
                have hlow := count_two_of_heads h220 h221
                have hup :=
                  mul_count_le_sum 2 ((rankCounts (cardRanks cards)).map (fun e => e.2))
                rw [hsum] at hup
                have hm : ((rankCounts (cardRanks cards)).map (fun e => e.2)).count 2 = 2 := by
                  omega
                have hflen :
                    ((rankCounts (cardRanks cards)).filter
                      (fun e => decide (e.2 = 2))).length = 2 := by
                  rw [← List.countP_eq_length_filter]
                  have hcp : List.countP (fun e => decide (e.2 = 2))
                      (rankCounts (cardRanks cards)) =
                      ((rankCounts (cardRanks cards)).map (fun e => e.2)).count 2 := by
                    rw [List.count, List.countP_map]
                    apply List.countP_congr
                    intro e _
                    by_cases h : e.2 = 2 <;> simp [h]
                  rw [hcp, hm]
                have hv : valuesLen 3 = 3 := rfl
                dsimp only
                rw [hv, List.length_append, jsSort_length, findAllRanksWithCount,
                  List.length_map, hflen]
                rfl
              · rw [if_neg h22]
                by_cases hp2 : (countValuesDesc (rankCounts (cardRanks cards))).getD 0 0 = 2
                · rw [if_pos hp2]
                  obtain ⟨r, hfr, hcr⟩ := hfindRank 2 (by omega) hp2
                  have hlenf : ((cardRanks cards).filter (fun x => x ≠ r)).length = 3 := by
                    rw [length_filter_ne, hr5, hcr]
                  have hv : valuesLen 2 = 4 := rfl
                  dsimp only
                  rw [hv, hfr, List.length_cons]
                  simp only [Option.getD_some]
                  rw [hlenf]
                · rw [if_neg hp2]
                  have hv : valuesLen 1 = 5 := rfl
                  dsimp only
                  rw [hv]
                  exact hr5

/-- Equal categories force equally long tie-break vectors. -/
theorem eval_shape_imp {x y : List Card} (hx : x.length = 5) (hy : y.length = 5) :
    (evaluateHand x).rank = (evaluateHand y).rank →
      (evaluateHand x).values.length = (evaluateHand y).values.length := by
  intro hr
  rw [evaluateHand_shape x hx, evaluateHand_shape y hy, hr]

/-- Fold invariant of `findBestHand`: the kept hand is the evaluation of the
kept combination and dominates the incumbent and everything folded so far. -/
theorem bestStep_fold :
    ∀ combos : List (List Card), (∀ c ∈ combos, c.length = 5) →
    ∀ bc : List Card, bc.length = 5 →
      ∃ bc2, combos.foldl bestStep (some (evaluateHand bc, bc)) =
          some (evaluateHand bc2, bc2) ∧
        bc2.length = 5 ∧ (bc2 = bc ∨ bc2 ∈ combos) ∧
        compareHands (evaluateHand bc) (evaluateHand bc2) ≤ 0 ∧
        ∀ c ∈ combos, compareHands (evaluateHand c) (evaluateHand bc2) ≤ 0 := by
  intro combos
  induction combos with
  | nil =>
    intro _ bc hbc
    exact ⟨bc, rfl, hbc, Or.inl rfl, le_of_eq (compareHands_self _), by simp⟩
  | cons c0 cs ih =>
    intro h5 bc hbc
    have h50 : c0.length = 5 := h5 c0 (by simp)
    have h5cs : ∀ c ∈ cs, c.length = 5 := fun c hc => h5 c (by simp [hc])
    rw [List.foldl_cons]
    by_cases hgt : 0 < compareHands (evaluateHand c0) (evaluateHand bc)
    · have hstep : bestStep (some (evaluateHand bc, bc)) c0 =
          some (evaluateHand c0, c0) := by
        rw [bestStep]
        simp [hgt]
      rw [hstep]
      obtain ⟨bc2, hfold, hbc2, hmem, hle, hall⟩ := ih h5cs c0 h50
      refine ⟨bc2, hfold, hbc2, ?_, ?_, ?_⟩
      · rcases hmem with h | h
        · right
          simp [h]
        · right
          simp [h]
      · have hanti := compareHands_antisymm (evaluateHand c0) (evaluateHand bc)
        have h1 : compareHands (evaluateHand bc) (evaluateHand c0) ≤ 0 := by omega
        exact compareHands_trans _ _ _ (eval_shape_imp hbc h50) (eval_shape_imp h50 hbc2)
          h1 hle
      · intro c hcmem
        rcases List.mem_cons.mp hcmem with rfl | hc2
        · exact hle
        · exact hall c hc2
    · have hstep : bestStep (some (evaluateHand bc, bc)) c0 =
          some (evaluateHand bc, bc) := by
        rw [bestStep]
        simp [hgt]
      rw [hstep]
      obtain ⟨bc2, hfold, hbc2, hmem, hle, hall⟩ := ih h5cs bc hbc
      refine ⟨bc2, hfold, hbc2, ?_, hle, ?_⟩
      · rcases hmem with h | h
        · left
          exact h
        · right
          simp [h]
      · intro c hcmem
        rcases List.mem_cons.mp hcmem with rfl | hc2
        · have h0 : compareHands (evaluateHand c) (evaluateHand bc) ≤ 0 := by omega
          exact compareHands_trans _ _ _ (eval_shape_imp h50 hbc) (eval_shape_imp hbc hbc2)
            h0 hle
        · exact hall c hc2

/-- The claim's wheel straight, of mixed suits. -/
def wheelHand : List Card :=
  [{ rank := "A", suit := "S" }, { rank := "2", suit := "H" }, { rank := "3", suit := "D" },
   { rank := "4", suit := "C" }, { rank := "5", suit := "S" }]

/-- A six-high straight of mixed suits. -/
def sixHighHand : List Card :=
  [{ rank := "6", suit := "S" }, { rank := "2", suit := "H" }, { rank := "3", suit := "D" },
   { rank := "4", suit := "C" }, { rank := "5", suit := "S" }]

/-- The claim's 7-7-7-2-2 full house. -/
def fullHouseHand : List Card :=
  [{ rank := "7", suit := "S" }, { rank := "7", suit := "H" }, { rank := "7", suit := "D" },
   { rank := "2", suit := "C" }, { rank := "2", suit := "S" }]

theorem compareHands_rank_lt {h1 h2 : HandEval} (hlt : h2.rank < h1.rank) :
    0 < compareHands h1 h2 := by
  rw [compareHands, if_pos (by omega)]
  omega

theorem compareHands_rank_gt {h1 h2 : HandEval} (hlt : h1.rank < h2.rank) :
    compareHands h1 h2 < 0 := by
  rw [compareHands, if_pos (by omega)]
  omega

/-- C4: `findBestHand` on 2 hole + 5 community cards examines all
C(7,5) = 21 five-card subsets and returns one whose evaluation dominates
every subset under the (category, tie-break vector) order; the wheel
A-2-3-4-5 is a straight with high card 5 strictly below the six-high
straight, and 7-7-7-2-2 is a full house with vector [7, 2] that beats every
flush and loses to every four of a kind. -/
theorem C4_findBestHand_max (hole community : List Card)
    (hh : hole.length = 2) (hcm : community.length = 5) :
    (getCombinations (hole ++ community) 5).length = 21 ∧
    (∃ bh, findBestHand hole community = some bh ∧
      bh.cards ∈ getCombinations (hole ++ community) 5 ∧
      bh.rank = (evaluateHand bh.cards).rank ∧
      bh.values = (evaluateHand bh.cards).values ∧
      ∀ c ∈ getCombinations (hole ++ community) 5,
        compareHands (evaluateHand c) (evaluateHand bh.cards) ≤ 0) ∧
    evaluateHand wheelHand = { rank := 5, values := [5], name := "Straight" } ∧
    compareHands (evaluateHand wheelHand) (evaluateHand sixHighHand) < 0 ∧
    evaluateHand fullHouseHand = { rank := 7, values := [7, 2], name := "Full House" } ∧
    (∀ h : List Card, (evaluateHand h).rank = 6 →
      0 < compareHands (evaluateHand fullHouseHand) (evaluateHand h)) ∧
    (∀ h : List Card, (evaluateHand h).rank = 8 →
      compareHands (evaluateHand fullHouseHand) (evaluateHand h) < 0) := by
  have hlen7 : (hole ++ community).length = 7 := by
    rw [List.length_append, hh, hcm]
  have hclen : (getCombinations (hole ++ community) 5).length = 21 := by
    rw [getCombinations_length, hlen7]
    decide
  have h5all : ∀ c ∈ getCombinations (hole ++ community) 5, c.length = 5 :=
    fun c hc => length_of_mem_getCombinations _ 5 c hc
  have hne : getCombinations (hole ++ community) 5 ≠ [] := by
    intro h0
    rw [h0] at hclen
    simp at hclen
  obtain ⟨c0, rest, hsplit⟩ := List.exists_cons_of_ne_nil hne
  have h50 : c0.length = 5 := h5all c0 (by rw [hsplit]; simp)
  have h5rest : ∀ c ∈ rest, c.length = 5 := fun c hc => h5all c (by rw [hsplit]; simp [hc])
  obtain ⟨bc2, hfold, hbc2, hmem, hle, hall⟩ := bestStep_fold rest h5rest c0 h50
  have hbest : findBestHand hole community = some
      { rank := (evaluateHand bc2).rank, values := (evaluateHand bc2).values,
        name := (evaluateHand bc2).name, cards := bc2 } := by
    rw [findBestHand]
    rw [hsplit, List.foldl_cons]
    have hfirst : bestStep none c0 = some (evaluateHand c0, c0) := rfl
    rw [hfirst, hfold]
    rfl
  refine ⟨hclen, ⟨_, hbest, ?_, rfl, rfl, ?_⟩, ?_, ?_, ?_, ?_, ?_⟩
  · rw [hsplit]
    rcases hmem with h | h
    · simp [h]
    · simp [h]
  · intro c hcmem
    rw [hsplit] at hcmem
    rcases List.mem_cons.mp hcmem with rfl | hc2
    · exact hle
    · exact hall c hc2
  · decide
  · decide
  · decide
  · intro h hr
    apply compareHands_rank_lt
    rw [hr]
    have h7 : (evaluateHand fullHouseHand).rank = 7 := by decide
    rw [h7]
    omega
  · intro h hr
    apply compareHands_rank_gt
    rw [hr]
    have h7 : (evaluateHand fullHouseHand).rank = 7 := by decide
    rw [h7]
    omega

/-- Concrete hole cards for the C4 witness. -/
def c4Hole : List Card := [{ rank := "7", suit := "S" }, { rank := "7", suit := "H" }]

/-- Concrete community cards for the C4 witness. -/
def c4Community : List Card :=
  [{ rank := "7", suit := "D" }, { rank := "2", suit := "C" }, { rank := "2", suit := "S" },
   { rank := "A", suit := "S" }, { rank := "K", suit := "D" }]

/-- C4 witness: the best-hand search applied to a concrete deal. -/
theorem C4_findBestHand_max_witness :
    ∃ bh, findBestHand c4Hole c4Community = some bh ∧
      bh.cards ∈ getCombinations (c4Hole ++ c4Community) 5 ∧
      bh.rank = (evaluateHand bh.cards).rank ∧
      bh.values = (evaluateHand bh.cards).values ∧
      ∀ c ∈ getCombinations (c4Hole ++ c4Community) 5,
        compareHands (evaluateHand c) (evaluateHand bh.cards) ≤ 0 :=
  (C4_findBestHand_max c4Hole c4Community rfl rfl).2.1

/-! ## C5: the queens puzzle generator (placeQueens, generateRegions,
countSolutions, regionsAreEqual, generatePuzzle).  Recursions are given
explicit fuel so that every function is structurally recursive and
kernel-computable; the fuel bounds are generous enough that exhaustion is
unreachable on the source's inputs, and exhaustion only yields the
conservative failure value. -/

/-- Row/column shape of a 6x6 grid value. -/
def gridShape (g : Grid) : Prop :=
  g.length = 6 ∧ ∀ row ∈ g, row.length = 6

/-- `grid[r][c] = v`. -/
def setCell (g : Grid) (r c : Nat) (v : Int) : Grid :=
  g.set r ((g.getD r []).set c v)

/-- The initial all-unassigned grid (`-1` everywhere). -/
def initialGrid : Grid := List.replicate 6 (List.replicate 6 (-1))

/-- The growth directions, in source order. -/
def dirs : List (Int × Int) := [(0, 1), (0, -1), (1, 0), (-1, 0)]

/-- All 36 cells in row-major order. -/
def allCells : List (Nat × Nat) :=
  (List.range 6).bind (fun r => (List.range 6).map (fun c => (r, c)))

/-- Seed the grid and queues: `grid[row][queenCols[row]] = row` and one
singleton queue per region, for `row = 0..5`. -/
def seedFrom (qc : List Nat) : Nat → Nat → Grid → Grid × List (List (Nat × Nat))
  | _, 0, g => (g, [])
  | row, k + 1, g =>
    let col := qc.getD row 0
    let g2 := setCell g row col (row : Int)
    let rest := seedFrom qc (row + 1) k g2
    (rest.1, [(row, col)] :: rest.2)

/-- Expand one frontier cell into its four neighbours: claim every
in-bounds, still-unassigned neighbour for `region` and record it. -/
def growCell (g : Grid) (region : Nat) (r c : Nat) :
    List (Int × Int) → Grid × List (Nat × Nat)
  | [] => (g, [])
  | d :: ds =>
    let nr := (r : Int) + d.1
    let nc := (c : Int) + d.2
    if 0 ≤ nr ∧ nr < 6 ∧ 0 ≤ nc ∧ nc < 6 ∧ getCell g nr.toNat nc.toNat = -1 then
      let g2 := setCell g nr.toNat nc.toNat (region : Int)
      let rest := growCell g2 region r c ds
      (rest.1, (nr.toNat, nc.toNat) :: rest.2)
    else growCell g region r c ds

/-- Expand a region's whole frontier queue, collecting the next queue. -/
def growQueue (g : Grid) (region : Nat) : List (Nat × Nat) → Grid × List (Nat × Nat)
  | [] => (g, [])
  | cell :: rest =>
    let first := growCell g region cell.1 cell.2 dirs
    let next := growQueue first.1 region rest
    (next.1, first.2 ++ next.2)

/-- One round-robin round over all region queues (ascending region id). -/
def stepRegions (g : Grid) (region : Nat) : List (List (Nat × Nat)) →
    Grid × List (List (Nat × Nat))
  | [] => (g, [])
  | q :: qs =>
    if q.isEmpty then
      let rest := stepRegions g (region + 1) qs
      (rest.1, q :: rest.2)
    else
      let gq := growQueue g region q
      let rest := stepRegions gq.1 (region + 1) qs
      (rest.1, gq.2 :: rest.2)

/-- The `while (totalAssigned < n * n)` loop of `generateRegions`; a round
that grows nothing returns `null`.  Each productive round assigns at least
one of the 30 free cells, so fuel 36 is never exhausted; exhaustion only
returns the conservative `none`. -/
def bfsLoop : Nat → Grid → List (List (Nat × Nat)) → Nat → Option Grid
  | 0, _, _, _ => none
  | fuel + 1, g, queues, total =>
    if 36 ≤ total then some g
    else
      let step := stepRegions g 0 queues
      let added := (step.2.map List.length).sum
      if added = 0 then none
      else bfsLoop fuel step.1 step.2 (total + added)

/-- `generateRegions(queenCols)`. -/
def generateRegions (qc : List Nat) : Option Grid :=
  let s := seedFrom qc 0 6 initialGrid
  bfsLoop 36 s.1 s.2 6

/-- The `isValid` check of `countSolutions`: no reused column, no
king-adjacency with an earlier row, no reused region. -/
def csOk (grid : Grid) (pfx : List Nat) (col : Nat) : Bool :=
  (List.range pfx.length).all (fun r =>
    let c := pfx.getD r 0
    !(c = col : Bool) &&
    !((((r : Int) - pfx.length).natAbs ≤ 1 : Bool) &&
      (((c : Int) - col).natAbs ≤ 1 : Bool)) &&
    !(getCell grid r c = getCell grid pfx.length col : Bool))

/-- The backtracking counter of `countSolutions` with its early exit once
the count exceeds 1; the column loop is a fold whose accumulator carries
the count, and `1 < acc` reproduces the `if (count > 1) return`. -/
def solveQ (grid : Grid) : Nat → List Nat → Nat → Nat
  | 0, _, count => count
  | fuel + 1, pfx, count =>
    if 6 ≤ pfx.length then count + 1
    else if 1 < count then count
    else
      (List.range 6).foldl
        (fun acc col =>
          if 1 < acc then acc
          else if csOk grid pfx col then solveQ grid fuel (pfx ++ [col]) acc
          else acc)
        count

/-- `countSolutions(grid)`. -/
def countSolutions (grid : Grid) : Nat :=
  solveQ grid 7 [] 0

/-- `regionsAreEqual(grid)`: every region id present in the grid covers
exactly `36 / 6 = 6` cells. -/
def regionsAreEqual (grid : Grid) : Bool :=
  ((allCells.map (fun p => getCell grid p.1 p.2)).dedup).all
    (fun id => (allCells.map (fun p => getCell grid p.1 p.2)).count id = 6)

/-- The `isValid` check of `placeQueens`: no reused column and no
king-adjacency with an earlier row. -/
def pqOk (pfx : List Nat) (col : Nat) : Bool :=
  (List.range pfx.length).all (fun r =>
    let c := pfx.getD r 0
    !(c = col : Bool) &&
    !((((r : Int) - pfx.length).natAbs ≤ 1 : Bool) &&
      (((c : Int) - col).natAbs ≤ 1 : Bool)))

/-- Swap two positions of a list (`[order[i], order[j]] = [order[j],
order[i]]`). -/
def listSwap (l : List Nat) (i j : Nat) : List Nat :=
  let vi := l.getD i 0
  let vj := l.getD j 0
  (l.set i vj).set j vi

/-- The Fisher-Yates loop `for (i = 5; i > 0; i--)`; draw `rng k` picks
`j = floor(random * (i + 1))`, embedded as `rng k % (i + 1)`. -/
def fyGo (rng : Nat → Nat) : Nat → Nat → List Nat → List Nat
  | _, 0, l => l
  | k, i + 1, l =>
    let j := rng k % (i + 2)
    fyGo rng (k + 1) i (listSwap l (i + 1) j)

/-- The per-call column shuffle of `solve`. -/
def fyShuffle (rng : Nat → Nat) (k : Nat) : List Nat :=
  fyGo rng k 5 [0, 1, 2, 3, 4, 5]

/-- The randomized backtracking search of `placeQueens`, threading the
position `k` of the next `Math.random()` draw; each shuffle consumes 5
draws.  The column loop is a fold that passes an already-found solution
through unchanged (the source's early `return true`). -/
def pqSolve (rng : Nat → Nat) : Nat → Nat → List Nat → Option (List Nat) × Nat
  | 0, k, _ => (none, k)
  | fuel + 1, k, pfx =>
    if 6 ≤ pfx.length then (some pfx, k)
    else
      (fyShuffle rng k).foldl
        (fun acc col =>
          match acc.1 with
          | some _ => acc
          | none =>
            if pqOk pfx col then pqSolve rng fuel acc.2 (pfx ++ [col])
            else acc)
        (none, k + 5)

/-- `placeQueens()`: `solve(0)` on the empty prefix. -/
def placeQueens (rng : Nat → Nat) (k : Nat) : Option (List Nat) × Nat :=
  pqSolve rng 7 k []

/-- The retry loop of `generatePuzzle` (at most 100 attempts). -/
def generatePuzzleAux (rng : Nat → Nat) : Nat → Nat → Except String (Grid × List Nat)
  | _, 0 => Except.error "Failed to generate a valid Queens puzzle"
  | k, fuel + 1 =>
    match placeQueens rng k with
    | (none, k2) => generatePuzzleAux rng k2 fuel
    | (some queenCols, k2) =>
      match generateRegions queenCols with
      | none => generatePuzzleAux rng k2 fuel
      | some grid =>
        if regionsAreEqual grid then
          if countSolutions grid = 1 then Except.ok (grid, queenCols)
          else generatePuzzleAux rng k2 fuel
        else generatePuzzleAux rng k2 fuel

/-- `generatePuzzle()` with its `maxAttempts = 100`. -/
def generatePuzzle (rng : Nat → Nat) : Except String (Grid × List Nat) :=
  generatePuzzleAux rng 0 100

/-- The stepwise validity of a column suffix `rest` appended after `pfx`:
every extension step passes the `isValid` check of `placeQueens`. -/
def pathOkFrom : List Nat → List Nat → Bool
  | _, [] => true
  | pfx, c :: rest => pqOk pfx c && pathOkFrom (pfx ++ [c]) rest

/-- A full column choice `qc` is rejected by the generator: either the
region growth stalls (`null`) or the grown regions have unequal sizes. -/
def qcRejected (qc : List Nat) : Bool :=
  match generateRegions qc with
  | some g => !(regionsAreEqual g)
  | none => true

/-- A pruned exhaustive search over all column choices that pass the
`placeQueens` validity check step by step: at depth 6 the candidate must
be rejected by `qcRejected`.  Invalid prefixes cut off their whole
subtree, so the kernel only runs the region growth on the 90 placements
that survive to depth 6. -/
def checkAll : Nat → List Nat → Bool
  | 0, _ => false
  | fuel + 1, pfx =>
    if 6 ≤ pfx.length then qcRejected pfx
    else (List.range 6).all (fun col => !(pqOk pfx col) || checkAll fuel (pfx ++ [col]))

set_option maxRecDepth 10000 in
set_option maxHeartbeats 1000000 in
theorem chk2_0_2 : checkAll 5 [0, 2] = true := by decide

set_option maxRecDepth 10000 in
set_option maxHeartbeats 1000000 in
theorem chk2_0_3 : checkAll 5 [0, 3] = true := by decide

set_option maxRecDepth 10000 in
set_option maxHeartbeats 1000000 in
theorem chk2_0_4 : checkAll 5 [0, 4] = true := by decide

set_option maxRecDepth 10000 in
set_option maxHeartbeats 1000000 in
theorem chk2_0_5 : checkAll 5 [0, 5] = true := by decide

set_option maxRecDepth 10000 in
set_option maxHeartbeats 1000000 in
theorem chk2_1_3 : checkAll 5 [1, 3] = true := by decide

set_option maxRecDepth 10000 in
set_option maxHeartbeats 1000000 in
theorem chk2_1_4 : checkAll 5 [1, 4] = true := by decide

set_option maxRecDepth 10000 in
set_option maxHeartbeats 1000000 in
theorem chk2_1_5 : checkAll 5 [1, 5] = true := by decide

set_option maxRecDepth 10000 in
set_option maxHeartbeats 1000000 in
theorem chk2_2_0 : checkAll 5 [2, 0] = true := by decide

set_option maxRecDepth 10000 in
set_option maxHeartbeats 1000000 in
theorem chk2_2_4 : checkAll 5 [2, 4] = true := by decide

set_option maxRecDepth 10000 in
set_option maxHeartbeats 1000000 in
theorem chk2_2_5 : checkAll 5 [2, 5] = true := by decide

set_option maxRecDepth 10000 in
set_option maxHeartbeats 1000000 in
theorem chk2_3_0 : checkAll 5 [3, 0] = true := by decide

set_option maxRecDepth 10000 in
set_option maxHeartbeats 1000000 in
theorem chk2_3_1 : checkAll 5 [3, 1] = true := by decide

set_option maxRecDepth 10000 in
set_option maxHeartbeats 1000000 in
theorem chk2_3_5 : checkAll 5 [3, 5] = true := by decide

set_option maxRecDepth 10000 in
set_option maxHeartbeats 1000000 in
theorem chk2_4_0 : checkAll 5 [4, 0] = true := by decide

set_option maxRecDepth 10000 in
set_option maxHeartbeats 1000000 in
theorem chk2_4_1 : checkAll 5 [4, 1] = true := by decide

set_option maxRecDepth 10000 in
set_option maxHeartbeats 1000000 in
theorem chk2_4_2 : checkAll 5 [4, 2] = true := by decide

set_option maxRecDepth 10000 in
set_option maxHeartbeats 1000000 in
theorem chk2_5_0 : checkAll 5 [5, 0] = true := by decide

set_option maxRecDepth 10000 in
set_option maxHeartbeats 1000000 in
theorem chk2_5_1 : checkAll 5 [5, 1] = true := by decide

set_option maxRecDepth 10000 in
set_option maxHeartbeats 1000000 in
theorem chk2_5_2 : checkAll 5 [5, 2] = true := by decide

set_option maxRecDepth 10000 in
set_option maxHeartbeats 1000000 in
theorem chk2_5_3 : checkAll 5 [5, 3] = true := by decide

theorem chk1_0 : checkAll 6 [0] = true := by
  show checkAll (5 + 1) [0] = true
  rw [checkAll]
  rw [if_neg (by decide : ¬ 6 ≤ ([0] : List Nat).length)]
  rw [show List.range 6 = [0, 1, 2, 3, 4, 5] from rfl]
  simp only [List.all_cons, List.all_nil, List.singleton_append]
  simp only [show (!(pqOk [0] 0)) = true from rfl,
    show (!(pqOk [0] 1)) = true from rfl,
    show (!(pqOk [0] 2)) = false from rfl,
    show (!(pqOk [0] 3)) = false from rfl,
    show (!(pqOk [0] 4)) = false from rfl,
    show (!(pqOk [0] 5)) = false from rfl,
    chk2_0_2,
    chk2_0_3,
    chk2_0_4,
    chk2_0_5,
    Bool.true_or, Bool.false_or, Bool.and_true, Bool.true_and]

theorem chk1_1 : checkAll 6 [1] = true := by
  show checkAll (5 + 1) [1] = true
  rw [checkAll]
  rw [if_neg (by decide : ¬ 6 ≤ ([1] : List Nat).length)]
  rw [show List.range 6 = [0, 1, 2, 3, 4, 5] from rfl]
  simp only [List.all_cons, List.all_nil, List.singleton_append]
  simp only [show (!(pqOk [1] 0)) = true from rfl,
    show (!(pqOk [1] 1)) = true from rfl,
    show (!(pqOk [1] 2)) = true from rfl,
    show (!(pqOk [1] 3)) = false from rfl,
    show (!(pqOk [1] 4)) = false from rfl,
    show (!(pqOk [1] 5)) = false from rfl,
    chk2_1_3,
    chk2_1_4,
    chk2_1_5,
    Bool.true_or, Bool.false_or, Bool.and_true, Bool.true_and]

theorem chk1_2 : checkAll 6 [2] = true := by
  show checkAll (5 + 1) [2] = true
  rw [checkAll]
  rw [if_neg (by decide : ¬ 6 ≤ ([2] : List Nat).length)]
  rw [show List.range 6 = [0, 1, 2, 3, 4, 5] from rfl]
  simp only [List.all_cons, List.all_nil, List.singleton_append]
  simp only [show (!(pqOk [2] 0)) = false from rfl,
    show (!(pqOk [2] 1)) = true from rfl,
    show (!(pqOk [2] 2)) = true from rfl,
    show (!(pqOk [2] 3)) = true from rfl,
    show (!(pqOk [2] 4)) = false from rfl,
    show (!(pqOk [2] 5)) = false from rfl,
    chk2_2_0,
    chk2_2_4,
    chk2_2_5,
    Bool.true_or, Bool.false_or, Bool.and_true, Bool.true_and]

theorem chk1_3 : checkAll 6 [3] = true := by
  show checkAll (5 + 1) [3] = true
  rw [checkAll]
  rw [if_neg (by decide : ¬ 6 ≤ ([3] : List Nat).length)]
  rw [show List.range 6 = [0, 1, 2, 3, 4, 5] from rfl]
  simp only [List.all_cons, List.all_nil, List.singleton_append]
  simp only [show (!(pqOk [3] 0)) = false from rfl,
    show (!(pqOk [3] 1)) = false from rfl,
    show (!(pqOk [3] 2)) = true from rfl,
    show (!(pqOk [3] 3)) = true from rfl,
    show (!(pqOk [3] 4)) = true from rfl,
    show (!(pqOk [3] 5)) = false from rfl,
    chk2_3_0,
    chk2_3_1,
    chk2_3_5,
    Bool.true_or, Bool.false_or, Bool.and_true, Bool.true_and]

theorem chk1_4 : checkAll 6 [4] = true := by
  show checkAll (5 + 1) [4] = true
  rw [checkAll]
  rw [if_neg (by decide : ¬ 6 ≤ ([4] : List Nat).length)]
  rw [show List.range 6 = [0, 1, 2, 3, 4, 5] from rfl]
  simp only [List.all_cons, List.all_nil, List.singleton_append]
  simp only [show (!(pqOk [4] 0)) = false from rfl,
    show (!(pqOk [4] 1)) = false from rfl,
    show (!(pqOk [4] 2)) = false from rfl,
    show (!(pqOk [4] 3)) = true from rfl,
    show (!(pqOk [4] 4)) = true from rfl,
    show (!(pqOk [4] 5)) = true from rfl,
    chk2_4_0,
    chk2_4_1,
    chk2_4_2,
    Bool.true_or, Bool.false_or, Bool.and_true, Bool.true_and]

theorem chk1_5 : checkAll 6 [5] = true := by
  show checkAll (5 + 1) [5] = true
  rw [checkAll]
  rw [if_neg (by decide : ¬ 6 ≤ ([5] : List Nat).length)]
  rw [show List.range 6 = [0, 1, 2, 3, 4, 5] from rfl]
  simp only [List.all_cons, List.all_nil, List.singleton_append]
  simp only [show (!(pqOk [5] 0)) = false from rfl,
    show (!(pqOk [5] 1)) = false from rfl,
    show (!(pqOk [5] 2)) = false from rfl,
    show (!(pqOk [5] 3)) = false from rfl,
    show (!(pqOk [5] 4)) = true from rfl,
    show (!(pqOk [5] 5)) = true from rfl,
    chk2_5_0,
    chk2_5_1,
    chk2_5_2,
    chk2_5_3,
    Bool.true_or, Bool.false_or, Bool.and_true, Bool.true_and]

/-- The exhaustive fact, checked by the kernel in per-prefix pieces:
every stepwise-valid placement of 6 queens is rejected by the region
stage.  The check is split along the first two column choices so that
each kernel evaluation stays small. -/
theorem checkAll_true : checkAll 7 [] = true := by
  show checkAll (6 + 1) [] = true
  rw [checkAll]
  rw [if_neg (by decide : ¬ 6 ≤ ([] : List Nat).length)]
  rw [show List.range 6 = [0, 1, 2, 3, 4, 5] from rfl]
  simp only [List.all_cons, List.all_nil, List.nil_append]
  simp only [show (!(pqOk [] 0)) = false from rfl,
    show (!(pqOk [] 1)) = false from rfl,
    show (!(pqOk [] 2)) = false from rfl,
    show (!(pqOk [] 3)) = false from rfl,
    show (!(pqOk [] 4)) = false from rfl,
    show (!(pqOk [] 5)) = false from rfl,
    chk1_0,
    chk1_1,
    chk1_2,
    chk1_3,
    chk1_4,
    chk1_5,
    Bool.true_or, Bool.false_or, Bool.and_true, Bool.true_and]

/-- A default-valued lookup in a list of small numbers is small. -/
theorem getD_lt (l : List Nat) (i : Nat) (h : ∀ y ∈ l, y < 6) : l.getD i 0 < 6 := by
  by_cases hi : i < l.length
  · rw [List.getD_eq_getElem?_getD, List.getElem?_eq_getElem hi]
    exact h _ (List.getElem_mem hi)
  · rw [List.getD_eq_getElem?_getD, List.getElem?_eq_none (Nat.le_of_not_lt hi)]
    decide

/-- Swapping entries preserves the bound (the default is in range). -/
theorem listSwap_lt (l : List Nat) (i j : Nat) (h : ∀ y ∈ l, y < 6) :
    ∀ x ∈ listSwap l i j, x < 6 := by
  intro x hx
  unfold listSwap at hx
  rcases List.mem_or_eq_of_mem_set hx with hx2 | rfl
  · rcases List.mem_or_eq_of_mem_set hx2 with hx3 | rfl
    · exact h x hx3
    · exact getD_lt l j h
  · exact getD_lt l i h

/-- The Fisher-Yates loop preserves the entry bound. -/
theorem fyGo_lt (rng : Nat → Nat) (i : Nat) : ∀ k l, (∀ y ∈ l, y < 6) →
    ∀ x ∈ fyGo rng k i l, x < 6 := by
  induction i with
  | zero => intro k l h x hx; exact h x hx
  | succ i ih =>
    intro k l h x hx
    exact ih (k + 1) (listSwap l (i + 1) (rng k % (i + 2))) (listSwap_lt _ _ _ h) x hx

/-- Every column produced by the per-call shuffle is in range. -/
theorem fyShuffle_lt (rng : Nat → Nat) (k : Nat) : ∀ x ∈ fyShuffle rng k, x < 6 :=
  fyGo_lt rng 5 k [0, 1, 2, 3, 4, 5] (by decide)

/-- If the column fold of `pqSolve` yields a solution, either the
accumulator already held it or some in-list column passed the validity
check and the recursive call from it yields that solution. -/
theorem pqFold_some (rng : Nat → Nat) (fuel : Nat) (pfx : List Nat) :
    ∀ (cols : List Nat) (a : Option (List Nat) × Nat) (qc : List Nat),
      (cols.foldl
        (fun acc col =>
          match acc.1 with
          | some _ => acc
          | none =>
            if pqOk pfx col then pqSolve rng fuel acc.2 (pfx ++ [col])
            else acc) a).1 = some qc →
      a.1 = some qc ∨
        ∃ col ∈ cols, pqOk pfx col = true ∧
          ∃ k2, (pqSolve rng fuel k2 (pfx ++ [col])).1 = some qc := by
  intro cols
  induction cols with
  | nil => intro a qc h; exact Or.inl h
  | cons c cs ih =>
    intro a qc h
    obtain ⟨a1, a2⟩ := a
    rw [List.foldl_cons] at h
    rcases ih _ qc h with h2 | ⟨col, hm, hok, k2, hs⟩
    · rcases a1 with _ | q
      · by_cases hok : pqOk pfx c = true
        · right
          refine ⟨c, List.mem_cons_self c cs, hok, a2, ?_⟩
          simp only [hok, if_true] at h2
          exact h2
        · left
          simp only [hok, Bool.false_eq_true, if_false] at h2
          exact h2
      · left
        exact h2
    · exact Or.inr ⟨col, List.mem_cons_of_mem _ hm, hok, k2, hs⟩

/-- Postcondition of the backtracking search: a returned solution extends
the prefix to exactly 6 in-range columns through stepwise-valid moves. -/
theorem pqSolve_post (rng : Nat → Nat) :
    ∀ fuel k pfx qc, pfx.length ≤ 6 → (pqSolve rng fuel k pfx).1 = some qc →
      ∃ rest, qc = pfx ++ rest ∧ qc.length = 6 ∧ (∀ x ∈ rest, x < 6) ∧
        pathOkFrom pfx rest = true := by
  intro fuel
  induction fuel with
  | zero => intro k pfx qc _ h; exact absurd h (by simp [pqSolve])
  | succ fuel ih =>
    intro k pfx qc hlen h
    rw [pqSolve] at h
    by_cases h6 : 6 ≤ pfx.length
    · rw [if_pos h6] at h
      have hq : pfx = qc := by simpa using h
      refine ⟨[], by simp [hq], ?_, by simp, rfl⟩
      rw [← hq]
      omega
    · rw [if_neg h6] at h
      rcases pqFold_some rng fuel pfx (fyShuffle rng k) (none, k + 5) qc h with
        h2 | ⟨col, hmem, hok, k2, hs⟩
      · exact absurd h2 (by simp)
      · have hcol : col < 6 := fyShuffle_lt rng k col hmem
        have hlen2 : (pfx ++ [col]).length ≤ 6 := by
          simp only [List.length_append, List.length_cons, List.length_nil]
          omega
        rcases ih k2 (pfx ++ [col]) qc hlen2 hs with ⟨rest, hqc, hq6, hrest, hpath⟩
        refine ⟨col :: rest, ?_, hq6, ?_, ?_⟩
        · rw [hqc]
          simp
        · intro x hx
          rcases List.mem_cons.mp hx with rfl | hx2
          · exact hcol
          · exact hrest x hx2
        · show (pqOk pfx col && pathOkFrom (pfx ++ [col]) rest) = true
          rw [hok, hpath]
          rfl

/-- Soundness of the pruned search: with enough fuel, `checkAll` covers
every stepwise-valid completion, so each one is rejected. -/
theorem checkAll_sound :
    ∀ (rest : List Nat) (n : Nat) (pfx : List Nat),
      rest.length < n → checkAll n pfx = true →
      pfx.length + rest.length = 6 → (∀ x ∈ rest, x < 6) →
      pathOkFrom pfx rest = true → qcRejected (pfx ++ rest) = true := by
  intro rest
  induction rest with
  | nil =>
    intro n pfx hn hc hlen _ _
    simp only [List.length_nil] at hlen
    rcases n with _ | m
    · omega
    · rw [checkAll, if_pos (by omega : 6 ≤ pfx.length)] at hc
      simpa using hc
  | cons c rest ih =>
    intro n pfx hn hc hlen hmem hpath
    rcases n with _ | m
    · omega
    · have hpl : ¬ 6 ≤ pfx.length := by
        simp only [List.length_cons] at hlen
        omega
      rw [checkAll, if_neg hpl] at hc
      have hc6 : c < 6 := hmem c (List.mem_cons_self c rest)
      have h2 := (List.all_eq_true.mp hc) c (List.mem_range.mpr hc6)
      have hsplit : pqOk pfx c = true ∧ pathOkFrom (pfx ++ [c]) rest = true := by
        have hb : (pqOk pfx c && pathOkFrom (pfx ++ [c]) rest) = true := hpath
        rw [Bool.and_eq_true] at hb
        exact hb
      rw [hsplit.1] at h2
      simp only [Bool.not_true, Bool.false_or] at h2
      have hih := ih m (pfx ++ [c])
        (by simp only [List.length_cons] at hn; omega) h2
        (by simp only [List.length_append, List.length_cons, List.length_nil] at hlen ⊢; omega)
        (fun x hx => hmem x (List.mem_cons_of_mem _ hx)) hsplit.2
      rw [List.append_cons]
      exact hih

/-- Every attempt of the retry loop fails, for every draw stream and
every fuel: a found placement is always rejected by the region stage. -/
theorem generatePuzzleAux_error (rng : Nat → Nat) :
    ∀ fuel k, generatePuzzleAux rng k fuel =
      Except.error "Failed to generate a valid Queens puzzle" := by
  intro fuel
  induction fuel with
  | zero => intro k; rfl
  | succ fuel ih =>
    intro k
    rw [generatePuzzleAux]
    rcases hpq : placeQueens rng k with ⟨o, k2⟩
    rcases o with _ | qc
    · exact ih k2
    · have h1 : (pqSolve rng 7 k []).1 = some qc := by
        show (placeQueens rng k).1 = some qc
        rw [hpq]
      rcases pqSolve_post rng 7 k [] qc (by simp) h1 with ⟨rest, hqc, hq6, hmem, hpath⟩
      have hrest : rest = qc := by simpa using hqc.symm
      rw [hrest] at hmem hpath
      have hrej : qcRejected qc = true := by
        have := checkAll_sound qc 7 [] (by omega) checkAll_true (by simpa using hq6)
          hmem hpath
        simpa using this
      rw [qcRejected] at hrej
      rcases hgr : generateRegions qc with _ | grid
      · simp only [hgr]
        exact ih k2
      · rw [hgr] at hrej
        have hre : regionsAreEqual grid = false := by simpa using hrej
        simp only [hgr, hre, Bool.false_eq_true, if_false]
        exact ih k2

/-- C5: the claim says `generatePuzzle` retries up to 100 times and,
when it returns, yields an equal-region, uniquely solvable puzzle whose
unique placement is the returned solution.  In fact the success branch is
unreachable: for each of the 90 column placements that pass the validity
check of `placeQueens`, the deterministic round-robin region growth
produces regions of unequal sizes, so the equal-region test fails on
every attempt, all 100 attempts are exhausted for every draw stream, and
`generatePuzzle` always throws.  Queens round initialization therefore
always fails, contradicting the generation guarantee. -/
theorem C5_generatePuzzle_always_throws (rng : Nat → Nat) :
    generatePuzzle rng = Except.error "Failed to generate a valid Queens puzzle" :=
  generatePuzzleAux_error rng 100 0
